import Mathlib

/-!
Shallow embedding of the Entropy bot decision engine.

The embedding follows the TypeScript sources of the repository:
common components (types, coordinates, move generation, palindrome
scoring, board analysis, LRU cache), the Order minimax bot, the Order
heuristic evaluator and the Chaos placement strategies.  JavaScript
numbers are modelled by `ℚ` (every arithmetic operation performed by the
engine is exact on dyadic rationals of small magnitude, so `ℚ` is a
faithful model); the `Infinity` / `-Infinity` sentinels used by the
search are modelled by the three-way type `JNum`.  Boards are lists of
cells; out-of-range reads return the empty cell, matching the fact that
the engine only indexes inside the 49-cell board.
-/

/-- The cell colors: seven token colors plus the empty cell
(the empty string in the source). -/
inductive Col where
  | R | G | Y | B | W | K | P
  | empty
deriving DecidableEq, Repr, Inhabited

open Col in
/-- `COLORS` constant: the seven real colors, in source order. -/
def COLORS : List Col := [R, G, Y, B, W, K, P]

/-- One-character rendering of a cell, empty cell renders as the empty
string; used by `getBoardStateKey` (`state.join('')`). -/
def colStr : Col → String
  | Col.R => "R"
  | Col.G => "G"
  | Col.Y => "Y"
  | Col.B => "B"
  | Col.W => "W"
  | Col.K => "K"
  | Col.P => "P"
  | Col.empty => ""

/-- `BoardState`: row-major list of 49 cells. -/
abbrev BoardState := List Col

/-- Whose turn it is. -/
inductive Turn where
  | chaos | order
deriving DecidableEq, Repr

/-- `GameState` from the common components. -/
structure GameState where
  state : BoardState
  nextToken : Col
  turn : Turn
deriving DecidableEq, Repr

/-- `Move` (a slide): board indices.  The source field names are
`from` / `to`; `from` is a Lean keyword so we use `fromI` / `toI`. -/
structure Move where
  fromI : ℕ
  toI : ℕ
deriving DecidableEq, Repr

/-- `OrderMove`: rendered mover action. -/
structure OrderMove where
  move : String
deriving DecidableEq, Repr

/-- `ChaosMove`: rendered placer action. -/
structure ChaosMove where
  move : String
deriving DecidableEq, Repr

/-- `indexToCoords`: row = idx / 7, col = idx % 7. -/
def indexToCoords (idx : ℕ) : ℕ × ℕ := (idx / 7, idx % 7)

/-- `coordsToIndex`. -/
def coordsToIndex (row col : ℕ) : ℕ := row * 7 + col

/-- `indexToPosition`: 17 → "c4" (row letter a-g, column digit 1-7). -/
def indexToPosition (idx : ℕ) : String :=
  String.mk [Char.ofNat (97 + idx / 7)] ++ toString (idx % 7 + 1)

/-- `isValidCoord` on integer coordinates (the walk in move generation
steps outside the board before the check fires). -/
def isValidCoord (row col : ℤ) : Bool :=
  0 ≤ row && row < 7 && 0 ≤ col && col < 7

/-- Cell read, `state[i]`; all engine reads are in range, out-of-range
reads yield the empty cell. -/
def cellAt (state : BoardState) (i : ℕ) : Col := state.getD i Col.empty

/-- `getRow`. -/
def getRow (state : BoardState) (row : ℕ) : List Col :=
  (List.range 7).map fun col => cellAt state (row * 7 + col)

/-- `getColumn`. -/
def getColumn (state : BoardState) (col : ℕ) : List Col :=
  (List.range 7).map fun row => cellAt state (row * 7 + col)

/-- `isPalindrome`: compare mirrored positions up to the middle. -/
def isPalindrome (seq : List Col) : Bool :=
  (List.range (seq.length / 2)).all fun i =>
    seq.getD i Col.empty == seq.getD (seq.length - 1 - i) Col.empty

/-- Recursive worker for `getPalindromeSignature`: `mapping` is the
first-occurrence map, `next` the next letter code, `acc` the signature
built so far. -/
def sigAux : List Col → List (Col × Char) → ℕ → String → String
  | [], _, _, acc => acc
  | c :: rest, mapping, next, acc =>
    match mapping.lookup c with
    | some ch => sigAux rest mapping next (acc.push ch)
    | none => sigAux rest ((c, Char.ofNat next) :: mapping) (next + 1) (acc.push (Char.ofNat next))

/-- `getPalindromeSignature`: first-occurrence relabeling,
['R','G','R'] → "ABA".  Letter codes start at 'A' = 65. -/
def getPalindromeSignature (seq : List Col) : String :=
  sigAux seq [] 65 ""

/-- `PALINDROME_SCORES`: the 30-entry score table, exactly as in the
source. -/
def PALINDROME_SCORES : List (String × ℚ) :=
  [("AA", 2),
   ("ABA", 3), ("AAA", 7),
   ("ABBA", 6), ("AAAA", 16),
   ("ABCBA", 8), ("AABAA", 12), ("ABABA", 14), ("ABBBA", 12), ("AAAAA", 30),
   ("AABBAA", 16), ("ABAABA", 18), ("ABBBBA", 22), ("ABCCBA", 12), ("AAAAAA", 50),
   ("ABCDCBA", 15), ("AAABAAA", 29), ("AABABAA", 25), ("AABBBAA", 23), ("AABCBAA", 19),
   ("ABAAABA", 25), ("ABABABA", 27), ("ABACABA", 21), ("ABBABBA", 27), ("ABBBBBA", 37),
   ("ABBCBBA", 19), ("ABCACBA", 15), ("ABCBCBA", 21), ("ABCCCBA", 19), ("AAAAAAA", 77)]

/-- JavaScript `x || y` on an optional number: `undefined` and `0` both
fall through to `y`. -/
def jsOr (x : Option ℚ) (y : ℚ) : ℚ :=
  match x with
  | some v => if v = 0 then y else v
  | none => y

/-- `scorePalindrome`: table value of the signature, falling back to
the raw length (`PALINDROME_SCORES[signature] || seq.length`). -/
def scorePalindrome (seq : List Col) : ℚ :=
  jsOr (PALINDROME_SCORES.lookup (getPalindromeSignature seq)) seq.length

/-- Body of `scoreSequence` on the already-filtered filled cells: sum
the palindrome scores of every contiguous sub-run of length ≥ 2. -/
def scoreFilled (filled : List Col) : ℚ :=
  if filled.length < 2 then 0
  else
    ((List.range (filled.length - 1)).map fun k =>
      let len := k + 2
      ((List.range (filled.length - len + 1)).map fun start =>
        let substring := (filled.drop start).take len
        if isPalindrome substring then scorePalindrome substring else 0).sum).sum

/-- `scoreSequence`: drop empties, then score every palindromic
sub-run. -/
def scoreSequence (sequence : List Col) : ℚ :=
  scoreFilled (sequence.filter fun c => c != Col.empty)

/-- `calculateFullBoardScore`: sum of `scoreSequence` over the 7 rows
and 7 columns. -/
def calculateFullBoardScore (state : BoardState) : ℚ :=
  Finset.sum (Finset.range 7) (fun row => scoreSequence (getRow state row)) +
  Finset.sum (Finset.range 7) (fun col => scoreSequence (getColumn state col))

/-- `DIRECTIONS`: up, down, left, right (row delta, col delta). -/
def DIRECTIONS : List (ℤ × ℤ) := [(-1, 0), (1, 0), (0, -1), (0, 1)]

/-- One direction of the sliding walk: step from `(row, col)` by
`(dRow, dCol)` while the destination stays on the board and empty,
emitting a move for each reached cell.  The source `while (true)` loop
leaves the board after at most 7 steps, so fuel 7 realises it exactly. -/
def rayAux (state : BoardState) (fromI : ℕ) (dRow dCol : ℤ) :
    ℕ → ℤ → ℤ → List Move
  | 0, _, _ => []
  | fuel + 1, row, col =>
    let row' := row + dRow
    let col' := col + dCol
    if !isValidCoord row' col' then []
    else
      let toI := (row' * 7 + col').toNat
      if cellAt state toI != Col.empty then []
      else ⟨fromI, toI⟩ :: rayAux state fromI dRow dCol fuel row' col'

/-- The four-direction slide moves of the piece at `fromI` (shared body
of `generateLegalMoves` and `getLegalMovesForPiece`). -/
def pieceMoves (state : BoardState) (fromI : ℕ) : List Move :=
  let c := indexToCoords fromI
  DIRECTIONS.bind fun d => rayAux state fromI d.1 d.2 7 (c.1 : ℤ) (c.2 : ℤ)

/-- `getLegalMovesForPiece`. -/
def getLegalMovesForPiece (state : BoardState) (fromI : ℕ) : List Move :=
  if cellAt state fromI == Col.empty then [] else pieceMoves state fromI

/-- `getAllLegalMoves` (= `Array.from(generateLegalMoves(state))`):
iterate all 49 cells in order, skipping empty ones. -/
def getAllLegalMoves (state : BoardState) : List Move :=
  (List.range 49).bind fun fromI =>
    if cellAt state fromI == Col.empty then [] else pieceMoves state fromI

/-- `applyMove`: destination takes the origin's color, origin is
cleared; pure (returns a fresh board). -/
def applyMove (state : BoardState) (move : Move) : BoardState :=
  (state.set move.toI (cellAt state move.fromI)).set move.fromI Col.empty

/-- `applyPlacement`. -/
def applyPlacement (state : BoardState) (position : ℕ) (color : Col) : BoardState :=
  state.set position color

/-- `formatOrderMove`: `null` renders as "pass", a move as "from-to". -/
def formatOrderMove (move : Option Move) : OrderMove :=
  match move with
  | none => ⟨"pass"⟩
  | some m => ⟨indexToPosition m.fromI ++ "-" ++ indexToPosition m.toI⟩

/-- `formatChaosMove`. -/
def formatChaosMove (position : ℕ) : ChaosMove :=
  ⟨indexToPosition position⟩

/-- `calculateScoreDelta`: rescore only the affected rows/columns
before and after the move and take the difference. -/
def calculateScoreDelta (oldState newState : BoardState) (move : Move) : ℚ :=
  let fc := indexToCoords move.fromI
  let tc := indexToCoords move.toI
  let oldScore :=
    scoreSequence (getRow oldState fc.1) + scoreSequence (getColumn oldState fc.2) +
    (if tc.1 ≠ fc.1 then scoreSequence (getRow oldState tc.1) else 0) +
    (if tc.2 ≠ fc.2 then scoreSequence (getColumn oldState tc.2) else 0)
  let newScore :=
    scoreSequence (getRow newState fc.1) + scoreSequence (getColumn newState fc.2) +
    (if tc.1 ≠ fc.1 then scoreSequence (getRow newState tc.1) else 0) +
    (if tc.2 ≠ fc.2 then scoreSequence (getColumn newState tc.2) else 0)
  newScore - oldScore

/-- `getEmptyPositions`. -/
def getEmptyPositions (state : BoardState) : List ℕ :=
  (List.range 49).filter fun i => cellAt state i == Col.empty

/-- `getFilledPositions`. -/
def getFilledPositions (state : BoardState) : List ℕ :=
  (List.range 49).filter fun i => cellAt state i != Col.empty

/-- Game phase. -/
inductive Phase where
  | early | mid | late
deriving DecidableEq, Repr

/-- `determineGamePhase`: thresholds 16 and 35 on the filled count. -/
def determineGamePhase (state : BoardState) : Phase :=
  let filledCount := (state.filter fun c => c != Col.empty).length
  if filledCount < 16 then Phase.early
  else if filledCount < 35 then Phase.mid
  else Phase.late

/-- `inferRemainingColors`: 7 minus the on-board count, per real color;
the map has no entry for the empty cell (callers apply `|| 0`). -/
def inferRemainingColors (state : BoardState) (color : Col) : Option ℤ :=
  if color = Col.empty then none
  else some (7 - ((state.filter fun c => c == color).length : ℤ))

/-- `getColorDistribution` lookup: on-board count of a real color
(`undefined`, read as 0, for colors not present). -/
def colorCount (state : BoardState) (color : Col) : ℕ :=
  (state.filter fun c => c == color).length

/-- `getColorDistribution(state).size`: number of distinct colors on
the board. -/
def distributionSize (state : BoardState) : ℕ :=
  (COLORS.filter fun c => 0 < colorCount state c).length

/-- `PatternPotential` record. -/
structure PatternPotential where
  almostComplete : ℚ
  twoMove : ℚ
  threeMove : ℚ
deriving DecidableEq, Repr

/-- `checkNearPalindromes`: 1 when the first and last filled cells
match, else 0. -/
def checkNearPalindromes (sequence : List Col) : ℚ :=
  let filled := sequence.filter fun c => c != Col.empty
  if 2 ≤ filled.length then
    if filled.getD 0 Col.empty == filled.getD (filled.length - 1) Col.empty then 1 else 0
  else 0

/-- `analyzeSequencePotential`: bucket by the line's empty-cell count. -/
def analyzeSequencePotential (sequence : List Col) : PatternPotential :=
  let emptyCount := (sequence.filter fun c => c == Col.empty).length
  if emptyCount = 1 then ⟨checkNearPalindromes sequence, 0, 0⟩
  else if emptyCount = 2 then ⟨0, checkNearPalindromes sequence, 0⟩
  else if emptyCount = 3 then ⟨0, 0, checkNearPalindromes sequence⟩
  else ⟨0, 0, 0⟩

/-- `analyzePatternPotential`: accumulate over the 14 lines. -/
def analyzePatternPotential (state : BoardState) : PatternPotential :=
  let rows := (List.range 7).map fun row => analyzeSequencePotential (getRow state row)
  let cols := (List.range 7).map fun col => analyzeSequencePotential (getColumn state col)
  ⟨((rows ++ cols).map (·.almostComplete)).sum,
   ((rows ++ cols).map (·.twoMove)).sum,
   ((rows ++ cols).map (·.threeMove)).sum⟩

/-- `calculateCenterControl` (common components): the four premium
center squares c4, d4, c5, d5. -/
def calculateCenterControl (state : BoardState) : ℚ :=
  let centerSquares := [coordsToIndex 2 3, coordsToIndex 3 3, coordsToIndex 2 4, coordsToIndex 3 4]
  ((centerSquares.filter fun idx => cellAt state idx != Col.empty).length : ℚ)

/-- `calculateEdgeControl`. -/
def calculateEdgeControl (state : BoardState) : ℚ :=
  (((List.range 49).filter fun i =>
    let c := indexToCoords i
    (c.1 = 0 || c.1 = 6 || c.2 = 0 || c.2 = 6) && cellAt state i != Col.empty).length : ℚ)

/-- `countColorGroups` (common components): number of colors appearing
at least twice in the line. -/
def countColorGroups (sequence : List Col) : ℚ :=
  ((COLORS.filter fun col => 2 ≤ (sequence.filter fun c => c == col).length).length : ℚ)

/-- `calculateConnectedGroups` (common components). -/
def calculateConnectedGroups (state : BoardState) : ℚ :=
  ((List.range 7).map fun row => countColorGroups (getRow state row)).sum +
  ((List.range 7).map fun col => countColorGroups (getColumn state col)).sum

/-- `calculateBoardControl` (common components):
center × 2 + edge × 1 + connected groups × 1.5. -/
def calculateBoardControl (state : BoardState) : ℚ :=
  calculateCenterControl state * 2 + calculateEdgeControl state * 1 +
    calculateConnectedGroups state * (3 / 2)

/-- JavaScript number with the `Infinity` sentinels used by the search
(`-Infinity`, finite, `Infinity`). -/
inductive JNum where
  | ninf
  | num (q : ℚ)
  | pinf
deriving DecidableEq, Repr

/-- `a <= b` on `JNum` (JS comparison; no NaN arises in the engine). -/
def jle : JNum → JNum → Bool
  | JNum.ninf, _ => true
  | _, JNum.pinf => true
  | JNum.num a, JNum.num b => a ≤ b
  | JNum.pinf, JNum.num _ => false
  | JNum.pinf, JNum.ninf => false
  | JNum.num _, JNum.ninf => false

/-- `a < b` on `JNum`. -/
def jlt (a b : JNum) : Bool := !jle b a

/-- `Math.max` on `JNum`. -/
def jmax (a b : JNum) : JNum := if jle a b then b else a

/-- `Math.min` on `JNum`. -/
def jmin (a b : JNum) : JNum := if jle a b then a else b

/-- The `LRUCache<string, number>` content: key/value pairs in
insertion order, oldest first. -/
abbrev Cache := List (String × ℚ)

/-- `LRUCache.get`: on a hit the entry moves to the most-recent end. -/
def lruGet (cache : Cache) (key : String) : Option ℚ × Cache :=
  match cache.lookup key with
  | none => (none, cache)
  | some v => (some v, (cache.filter fun kv => kv.1 != key) ++ [(key, v)])

/-- `LRUCache.set`: delete an existing entry for the key, append at the
most-recent end, and evict the oldest entry when over capacity. -/
def lruSet (cache : Cache) (key : String) (v : ℚ) (maxSize : ℕ) : Cache :=
  let c := if (cache.lookup key).isSome then cache.filter fun kv => kv.1 != key else cache
  let c := c ++ [(key, v)]
  if maxSize < c.length then c.drop 1 else c

/-- Search context: the wall clock (elapsed milliseconds, in call
order, as returned by the `TimeManager` polls) and whether the
transposition cache is enabled (`false` models the cache-disabled run
of the same search). -/
structure SCtx where
  clock : ℕ → ℚ
  useCache : Bool

/-- Mutable search state: how many clock polls happened so far, and
the transposition-cache content. -/
structure SSt where
  polls : ℕ
  cache : Cache
deriving Repr

/-- `timeManager.shouldStop()`: elapsed ≥ 2000 ms (2.0 s budget);
consumes one clock poll. -/
def pollShouldStop (ctx : SCtx) (s : SSt) : Bool × SSt :=
  (decide ((2000 : ℚ) ≤ ctx.clock s.polls), { s with polls := s.polls + 1 })

/-- `timeManager.remaining()`: 2000 − elapsed; consumes one clock
poll. -/
def pollRemaining (ctx : SCtx) (s : SSt) : ℚ × SSt :=
  (2000 - ctx.clock s.polls, { s with polls := s.polls + 1 })

/-- Transposition-table read (no-op when the cache is disabled). -/
def ttGet (ctx : SCtx) (key : String) (s : SSt) : Option ℚ × SSt :=
  if ctx.useCache then
    let r := lruGet s.cache key
    (r.1, { s with cache := r.2 })
  else (none, s)

/-- Transposition-table write, capacity 5000 (no-op when disabled). -/
def ttSet (ctx : SCtx) (key : String) (v : ℚ) (s : SSt) : SSt :=
  if ctx.useCache then { s with cache := lruSet s.cache key v 5000 } else s

/-- Stable insertion into a list sorted by descending score: an element
is placed after all earlier elements with score ≥ its own.  Models the
(stable) JS `sort((a, b) => b.score - a.score)`. -/
def insertDesc {α : Type} (x : α × ℚ) : List (α × ℚ) → List (α × ℚ)
  | [] => [x]
  | y :: ys => if x.2 ≤ y.2 then y :: insertDesc x ys else x :: y :: ys

/-- Stable sort by descending score. -/
def sortByScoreDesc {α : Type} (l : List (α × ℚ)) : List (α × ℚ) :=
  l.foldl (fun acc x => insertDesc x acc) []

namespace Minimax

/-- `getBoardStateKey`: `state.join('')` — empty cells contribute
nothing to the key. -/
def getBoardStateKey (state : BoardState) : String :=
  (state.map colStr).foldl (· ++ ·) ""

/-- `isGameOver`: board full. -/
def isGameOver (state : BoardState) : Bool :=
  (getEmptyPositions state).length == 0

/-- `calculatePatternPotential` (identical in the minimax and heuristic
bot sources): 10 / 5 / 2 weights on the potential buckets. -/
def calculatePatternPotential (state : BoardState) : ℚ :=
  let analysis := analyzePatternPotential state
  analysis.almostComplete * 10 + analysis.twoMove * 5 + analysis.threeMove * 2

/-- `isDisruptable` (minimax bot): the line has an empty cell and at
least two filled cells. -/
def isDisruptable (sequence : List Col) : Bool :=
  let emptyCount := (sequence.filter fun c => c == Col.empty).length
  let filledCount := (sequence.filter fun c => c != Col.empty).length
  0 < emptyCount && 2 ≤ filledCount

/-- `calculateChaosOpportunities` (minimax bot):
empty cells × 0.5 + disruptable lines × 2. -/
def calculateChaosOpportunities (state : BoardState) : ℚ :=
  let emptyCount := (getEmptyPositions state).length
  let disruptablePatterns :=
    ((List.range 7).filter fun row => isDisruptable (getRow state row)).length +
    ((List.range 7).filter fun col => isDisruptable (getColumn state col)).length
  (emptyCount : ℚ) * (1 / 2) + (disruptablePatterns : ℚ) * 2

/-- `evaluatePosition` of the minimax bot: four components with
weights 100 / 50 / 20 / −30. -/
def evaluatePosition (gameState : GameState) : ℚ :=
  let state := gameState.state
  let currentScore := calculateFullBoardScore state
  let potential := calculatePatternPotential state
  let chaosOpportunities := calculateChaosOpportunities state
  let boardControl := calculateBoardControl state
  currentScore * 100 + potential * 50 + boardControl * 20 + chaosOpportunities * (-30)


/-- `orderMovesByHeuristic`: sort moves by descending immediate score
delta. -/
def orderMovesByHeuristic (state : BoardState) (moves : List Move) : List Move :=
  (sortByScoreDesc (moves.map fun move =>
    (move, calculateScoreDelta state (applyMove state move) move))).map (·.1)

/-- `evaluatePatternDisruption`: drop in almost-complete potential of
the touched row and column caused by a placement. -/
def evaluatePatternDisruption (state : BoardState) (position : ℕ) (color : Col) : ℚ :=
  let c := indexToCoords position
  let potentialBefore :=
    (analyzeSequencePotential (getRow state c.1)).almostComplete +
    (analyzeSequencePotential (getColumn state c.2)).almostComplete
  let newState := applyPlacement state position color
  let potentialAfter :=
    (analyzeSequencePotential (getRow newState c.1)).almostComplete +
    (analyzeSequencePotential (getColumn newState c.2)).almostComplete
  potentialBefore - potentialAfter

/-- `orderChaosPlacementsByHeuristic`: most disruptive placements
first. -/
def orderChaosPlacementsByHeuristic (state : BoardState) (positions : List ℕ)
    (color : Col) : List ℕ :=
  (sortByScoreDesc (positions.map fun pos =>
    (pos, evaluatePatternDisruption state pos color))).map (·.1)

/-- The slide loop of `maximizingPlayer`, with the time-check /
beta-cutoff break at the head and the beta-cutoff break at the end of
each iteration; `recur` is the minimax recursion one depth down. -/
def maxLoop (ctx : SCtx) (recur : GameState → JNum → JNum → Bool → SSt → JNum × SSt)
    (gameState : GameState) : List Move → JNum → JNum → JNum → SSt → JNum × SSt
  | [], maxEval, _, _, s => (maxEval, s)
  | move :: rest, maxEval, alpha, beta, s =>
    let r := pollShouldStop ctx s
    if r.1 || jle beta alpha then (maxEval, r.2)
    else
      let newState := applyMove gameState.state move
      let re := recur { gameState with state := newState } alpha beta false r.2
      let maxEval' := jmax maxEval re.1
      let alpha' := jmax alpha re.1
      if jle beta alpha' then (maxEval', re.2)
      else maxLoop ctx recur gameState rest maxEval' alpha' beta re.2

/-- `maximizingPlayer` (Order): always considers passing first, then
the ordered slides. -/
def maximizingPlayer (ctx : SCtx) (recur : GameState → JNum → JNum → Bool → SSt → JNum × SSt)
    (gameState : GameState) (alpha beta : JNum) (s : SSt) : JNum × SSt :=
  let moves := getAllLegalMoves gameState.state
  let orderedMoves := orderMovesByHeuristic gameState.state moves
  let rp := recur gameState alpha beta false s
  let maxEval := jmax JNum.ninf rp.1
  let alpha' := jmax alpha maxEval
  maxLoop ctx recur gameState orderedMoves maxEval alpha' beta rp.2

/-- The placement loop of `minimizingPlayer`. -/
def minLoop (ctx : SCtx) (recur : GameState → JNum → JNum → Bool → SSt → JNum × SSt)
    (gameState : GameState) : List ℕ → JNum → JNum → JNum → SSt → JNum × SSt
  | [], minEval, _, _, s => (minEval, s)
  | position :: rest, minEval, alpha, beta, s =>
    let r := pollShouldStop ctx s
    if r.1 || jle beta alpha then (minEval, r.2)
    else
      let newState := applyPlacement gameState.state position gameState.nextToken
      let re := recur { gameState with state := newState } alpha beta true r.2
      let minEval' := jmin minEval re.1
      let beta' := jmin beta re.1
      if jle beta' alpha then (minEval', re.2)
      else minLoop ctx recur gameState rest minEval' alpha beta' re.2

/-- `minimizingPlayer` (Chaos): ordered placements of the announced
color. -/
def minimizingPlayer (ctx : SCtx) (recur : GameState → JNum → JNum → Bool → SSt → JNum × SSt)
    (gameState : GameState) (alpha beta : JNum) (s : SSt) : JNum × SSt :=
  let emptyPositions := getEmptyPositions gameState.state
  let orderedPositions :=
    orderChaosPlacementsByHeuristic gameState.state emptyPositions gameState.nextToken
  minLoop ctx recur gameState orderedPositions JNum.pinf alpha beta s

/-- `minimax`: poll the clock (on stop, return the static evaluation),
then look up the transposition table, then handle the leaf cases
(depth 0 or full board, caching the static evaluation), and otherwise
recurse into the maximizing (Order) or minimizing (Chaos) player. -/
def minimax (ctx : SCtx) : (depth : ℕ) → GameState → JNum → JNum → Bool → SSt → JNum × SSt
  | depth, gameState, alpha, beta, isMaximizing, s =>
    let r := pollShouldStop ctx s
    if r.1 then (JNum.num (evaluatePosition gameState), r.2)
    else
      let stateKey := getBoardStateKey gameState.state
      let rc := ttGet ctx stateKey r.2
      match rc.1 with
      | some cached => (JNum.num cached, rc.2)
      | none =>
        match depth with
        | 0 =>
          let ev := evaluatePosition gameState
          (JNum.num ev, ttSet ctx stateKey ev rc.2)
        | depth' + 1 =>
          if isGameOver gameState.state then
            let ev := evaluatePosition gameState
            (JNum.num ev, ttSet ctx stateKey ev rc.2)
          else if isMaximizing then
            maximizingPlayer ctx (fun gs a b im st => minimax ctx depth' gs a b im st)
              gameState alpha beta rc.2
          else
            minimizingPlayer ctx (fun gs a b im st => minimax ctx depth' gs a b im st)
              gameState alpha beta rc.2

/-- `MinimaxResult`. -/
structure MinimaxResult where
  score : JNum
  move : Option Move
deriving DecidableEq, Repr

/-- Root move loop of `iterativeDeepening`: time-check at the head,
alpha and beta stay at their initial infinite values, strict
improvement updates the best move. -/
def idLoop (ctx : SCtx) (gameState : GameState) (maxDepth : ℕ) :
    List Move → JNum → Option Move → SSt → MinimaxResult × SSt
  | [], bestScore, bestMove, s => (⟨bestScore, bestMove⟩, s)
  | move :: rest, bestScore, bestMove, s =>
    let r := pollShouldStop ctx s
    if r.1 then (⟨bestScore, bestMove⟩, r.2)
    else
      let newState := applyMove gameState.state move
      let re := minimax ctx (maxDepth - 1) { gameState with state := newState }
        JNum.ninf JNum.pinf false r.2
      if jlt bestScore re.1 then idLoop ctx gameState maxDepth rest re.1 (some move) re.2
      else idLoop ctx gameState maxDepth rest bestScore bestMove re.2

/-- `iterativeDeepening`: one fixed-depth search over the ordered root
moves. -/
def iterativeDeepening (ctx : SCtx) (gameState : GameState) (maxDepth : ℕ)
    (s : SSt) : MinimaxResult × SSt :=
  let allMoves := getAllLegalMoves gameState.state
  let orderedMoves := orderMovesByHeuristic gameState.state allMoves
  idLoop ctx gameState maxDepth orderedMoves JNum.ninf none s

/-- The `while (remaining > 500 && depth <= 4)` loop of
`orderNextTurn`; a non-null iteration result overwrites the best move.
The loop runs at most four times (depths 1-4), so fuel 5 realises it
exactly. -/
def otLoop (ctx : SCtx) (gameState : GameState) :
    ℕ → ℕ → Option Move → SSt → Option Move × SSt
  | 0, _, bestMove, s => (bestMove, s)
  | fuel + 1, depth, bestMove, s =>
    let r := pollRemaining ctx s
    if 500 < r.1 ∧ depth ≤ 4 then
      let ri := iterativeDeepening ctx gameState depth r.2
      let bestMove' := match ri.1.move with
        | some m => some m
        | none => bestMove
      otLoop ctx gameState fuel (depth + 1) bestMove' ri.2
    else (bestMove, r.2)

/-- `orderNextTurn` of the minimax bot: fresh 2.0 s time budget, fresh
transposition table, iterative deepening from depth 1.  The wall clock
is supplied as the sequence of elapsed-millisecond readings the
`TimeManager` polls observe. -/
def orderNextTurn (gameState : GameState) (clock : ℕ → ℚ) : OrderMove :=
  let ctx : SCtx := ⟨clock, true⟩
  let r := otLoop ctx gameState 5 1 none ⟨0, []⟩
  formatOrderMove r.1

end Minimax

namespace Heuristic

/-- `calculatePatternPotential` (heuristic bot source; identical to the
minimax bot's). -/
def calculatePatternPotential (state : BoardState) : ℚ :=
  let analysis := analyzePatternPotential state
  analysis.almostComplete * 10 + analysis.twoMove * 5 + analysis.threeMove * 2

/-- `calculateCenterControl` (heuristic bot): the four premium center
squares; the source's `extendedCenter` array literal is empty (only a
comment inside), so the extended loop adds nothing. -/
def calculateCenterControl (state : BoardState) : ℚ :=
  let centerSquares := [coordsToIndex 2 3, coordsToIndex 3 3, coordsToIndex 2 4, coordsToIndex 3 4]
  ((centerSquares.filter fun idx => cellAt state idx != Col.empty).length : ℚ) +
    (([] : List ℕ).filter fun idx => cellAt state idx != Col.empty).length * (1 / 2)

/-- `countColorGroups` (heuristic bot): each color with `count ≥ 2`
pieces in the line contributes `count − 1`. -/
def countColorGroups (sequence : List Col) : ℚ :=
  ((COLORS.map fun col =>
    let count := (sequence.filter fun c => c == col).length
    if 2 ≤ count then (count : ℚ) - 1 else 0)).sum

/-- `calculateConnectedGroups` (heuristic bot). -/
def calculateConnectedGroups (state : BoardState) : ℚ :=
  ((List.range 7).map fun row => countColorGroups (getRow state row)).sum +
  ((List.range 7).map fun col => countColorGroups (getColumn state col)).sum

/-- `calculateBoardControl` (heuristic bot):
center × 2 + edge × 1 + connected groups × 1.5. -/
def calculateBoardControl (state : BoardState) : ℚ :=
  calculateCenterControl state * 2 + calculateEdgeControl state * 1 +
    calculateConnectedGroups state * (3 / 2)

/-- `isVulnerableToDisruption` (heuristic bot): an empty cell and ≥ 2
filled cells, with matching first/last filled cells or an adjacent
same-color pair among the filled cells. -/
def isVulnerableToDisruption (sequence : List Col) : Bool :=
  let emptyCount := (sequence.filter fun c => c == Col.empty).length
  let filledCount := (sequence.filter fun c => c != Col.empty).length
  if emptyCount = 0 || filledCount < 2 then false
  else
    let filled := sequence.filter fun c => c != Col.empty
    if 2 ≤ filled.length &&
        filled.getD 0 Col.empty == filled.getD (filled.length - 1) Col.empty then true
    else (List.range (filled.length - 1)).any fun i =>
      filled.getD i Col.empty == filled.getD (i + 1) Col.empty

/-- `countDisruptablePatterns` (heuristic bot). -/
def countDisruptablePatterns (state : BoardState) : ℕ :=
  ((List.range 7).filter fun row => isVulnerableToDisruption (getRow state row)).length +
  ((List.range 7).filter fun col => isVulnerableToDisruption (getColumn state col)).length

/-- `calculateChaosOpportunities` (heuristic bot):
empty cells × 0.5 + vulnerable lines × 2. -/
def calculateChaosOpportunities (state : BoardState) : ℚ :=
  let emptyCount := (getEmptyPositions state).length
  (emptyCount : ℚ) * (1 / 2) + (countDisruptablePatterns state : ℚ) * 2

/-- On-board count of the announced token (`onBoard.get(nextToken)`
with the `|| 0` read; the map holds only real colors). -/
def onBoardCount (state : BoardState) (color : Col) : ℕ :=
  if color = Col.empty then 0 else colorCount state color

/-- `evaluateNextTokenPositions`: +2 for each empty cell whose row or
column already holds the announced token. -/
def evaluateNextTokenPositions (state : BoardState) (nextToken : Col) : ℚ :=
  ((getEmptyPositions state).map fun pos =>
    let c := indexToCoords pos
    let rowHasNextToken := (getRow state c.1).any fun x => x == nextToken
    let colHasNextToken := (getColumn state c.2).any fun x => x == nextToken
    if rowHasNextToken || colHasNextToken then (2 : ℚ) else 0).sum

/-- `analyzeColorDistribution` (heuristic bot): scarcity bonus,
abundance penalty, diversity bonus, preparation bonus. -/
def analyzeColorDistribution (state : BoardState) (nextToken : Col) : ℚ :=
  let nextTokenOnBoard := onBoardCount state nextToken
  (if nextTokenOnBoard ≤ 1 then (10 : ℚ) else 0) +
  (if 4 ≤ nextTokenOnBoard then (-5 : ℚ) else 0) +
  (distributionSize state : ℚ) * 2 +
  evaluateNextTokenPositions state nextToken

/-- `calculateColorDiversity`: 3 / 2.5 / 2 / 1 by the number of
distinct colors in the line. -/
def calculateColorDiversity (sequence : List Col) : ℚ :=
  let uniqueColors := (COLORS.filter fun col =>
    0 < (sequence.filter fun c => c == col).length).length
  if uniqueColors = 1 then 3
  else if uniqueColors = 2 then 5 / 2
  else if uniqueColors = 3 then 2
  else 1

/-- `calculateSequenceFertility`: the 2-4 filled-cell sweet spot scaled
by color diversity; 5-6 filled × 1.5; full line a fixed 10. -/
def calculateSequenceFertility (sequence : List Col) : ℚ :=
  let emptyCount := (sequence.filter fun c => c == Col.empty).length
  let filledCount := 7 - emptyCount
  if filledCount = 0 ∨ filledCount = 1 then 0
  else if 2 ≤ filledCount ∧ filledCount ≤ 4 then
    ((5 : ℚ) - emptyCount) * calculateColorDiversity sequence * 2
  else if 5 ≤ filledCount ∧ filledCount ≤ 6 then (filledCount : ℚ) * (3 / 2)
  else 10

/-- `calculateFertility`. -/
def calculateFertility (state : BoardState) : ℚ :=
  ((List.range 7).map fun row => calculateSequenceFertility (getRow state row)).sum +
  ((List.range 7).map fun col => calculateSequenceFertility (getColumn state col)).sum

/-- `evaluatePosition` of the heuristic bot: six components with
weights 100 / 50 / 30 / −40 / 20 / 25. -/
def evaluatePosition (gameState : GameState) : ℚ :=
  let state := gameState.state
  let nextToken := gameState.nextToken
  let immediate := calculateFullBoardScore state
  let potential := calculatePatternPotential state
  let control := calculateBoardControl state
  let opportunities := calculateChaosOpportunities state
  let distribution := analyzeColorDistribution state nextToken
  let fertility := calculateFertility state
  immediate * 100 + potential * 50 + control * 30 + opportunities * (-40) +
    distribution * 20 + fertility * 25

end Heuristic

/-- Modelled from the spec (§4.3 / claim C10): the mover-side position
evaluator as the spec words it — the weighted sum of exactly six
components with default weights: immediate score × 100, pattern
potential × 50, board control × 30, opponent-opportunity penalty
× −40, announced-color preparation × 20 and line fertility × 25. -/
def specEvaluatePosition (gameState : GameState) : ℚ :=
  Heuristic.calculatePatternPotential gameState.state * 50 +
  calculateFullBoardScore gameState.state * 100 +
  Heuristic.calculateBoardControl gameState.state * 30 +
  Heuristic.calculateChaosOpportunities gameState.state * (-40) +
  Heuristic.analyzeColorDistribution gameState.state gameState.nextToken * 20 +
  Heuristic.calculateFertility gameState.state * 25

/-- Direction tag for `couldFormPalindrome`. -/
inductive Dir where
  | horizontal | vertical
deriving DecidableEq, Repr

/-- JavaScript `x || y` on an optional integer. -/
def jsOrZ (x : Option ℤ) (y : ℤ) : ℤ :=
  match x with
  | some v => if v = 0 then y else v
  | none => y

namespace Chaos

/-- `evaluatePatternBreaking`: potential reduction in the touched row
and column caused by placing `color` at `position`, weights 10 and 5 on
the almost-complete and two-move buckets. -/
def evaluatePatternBreaking (state : BoardState) (position : ℕ) (color : Col) : ℚ :=
  let c := indexToCoords position
  let rowBefore := analyzeSequencePotential (getRow state c.1)
  let tempState := applyPlacement state position color
  let rowAfter := analyzeSequencePotential (getRow tempState c.1)
  let colBefore := analyzeSequencePotential (getColumn state c.2)
  let colAfter := analyzeSequencePotential (getColumn tempState c.2)
  (rowBefore.almostComplete - rowAfter.almostComplete) * 10 +
    (rowBefore.twoMove - rowAfter.twoMove) * 5 +
    ((colBefore.almostComplete - colAfter.almostComplete) * 10 +
      (colBefore.twoMove - colAfter.twoMove) * 5)

/-- `couldFormPalindrome`: could a palindrome of the given length,
starting at the given line offset, still form through `position`?  True
when the position lies in the window, at least two cells are filled and
at least one mirror pair already matches. -/
def couldFormPalindrome (state : BoardState) (startRow startCol length : ℕ)
    (direction : Dir) (position : ℕ) : Bool :=
  let sequence := (List.range length).map fun i =>
    match direction with
    | Dir.horizontal => cellAt state (coordsToIndex startRow (startCol + i))
    | Dir.vertical => cellAt state (coordsToIndex (startRow + i) startCol)
  let posInSequence : ℤ :=
    match direction with
    | Dir.horizontal => ((indexToCoords position).2 : ℤ) - startCol
    | Dir.vertical => ((indexToCoords position).1 : ℤ) - startRow
  if posInSequence < 0 || (length : ℤ) ≤ posInSequence then false
  else
    let emptyCount := (sequence.filter fun c => c == Col.empty).length
    let filledCount := length - emptyCount
    if filledCount < 2 then false
    else
      let matchCount := ((List.range (length / 2)).filter fun i =>
        let left := sequence.getD i Col.empty
        let right := sequence.getD (length - 1 - i) Col.empty
        left != Col.empty && right != Col.empty && left == right).length
      1 ≤ matchCount

/-- `evaluateOpportunityDenial`: over window lengths 2-7 and admissible
starts, add the length for each palindrome window through the position
that could still form. -/
def evaluateOpportunityDenial (state : BoardState) (position : ℕ) : ℚ :=
  let c := indexToCoords position
  ((List.range 6).map (fun k =>
    let len := k + 2
    let hStarts := (List.range (min 6 c.2 + 1 - (c.2 + 1 - len))).map (· + (c.2 + 1 - len))
    let vStarts := (List.range (min 6 c.1 + 1 - (c.1 + 1 - len))).map (· + (c.1 + 1 - len))
    (((hStarts.filter fun start => start + len ≤ 7).filter fun start =>
        couldFormPalindrome state c.1 start len Dir.horizontal position).length : ℚ) * len +
      (((vStarts.filter fun start => start + len ≤ 7).filter fun start =>
        couldFormPalindrome state start c.2 len Dir.vertical position).length : ℚ) * len)).sum

/-- `calculateIsolationScore`: fewer same-color pieces in the touched
row and column is better for isolating a scarce color. -/
def calculateIsolationScore (state : BoardState) (position : ℕ) (color : Col) : ℚ :=
  let c := indexToCoords position
  let sameColorInRow := ((getRow state c.1).filter fun x => x == color).length
  let sameColorInCol := ((getColumn state c.2).filter fun x => x == color).length
  ((7 : ℚ) - sameColorInRow) + ((7 : ℚ) - sameColorInCol)

/-- `calculateBlockingScore`: potential of the touched row and column,
weights 10 / 5 on almost-complete / two-move. -/
def calculateBlockingScore (state : BoardState) (position : ℕ) : ℚ :=
  let c := indexToCoords position
  let rowPotential := analyzeSequencePotential (getRow state c.1)
  let colPotential := analyzeSequencePotential (getColumn state c.2)
  rowPotential.almostComplete * 10 + rowPotential.twoMove * 5 +
    colPotential.almostComplete * 10 + colPotential.twoMove * 5

/-- `evaluateBagAwareness`: isolate scarce colors (≤ 2 left in the
bag), block with abundant ones. -/
def evaluateBagAwareness (state : BoardState) (position : ℕ) (color : Col) : ℚ :=
  let colorCount := jsOrZ (inferRemainingColors state color) 0
  if colorCount ≤ 2 then calculateIsolationScore state position color
  else calculateBlockingScore state position

/-- `selectTopMovesByQuickHeuristic`: keep the `count` best moves by
immediate score delta. -/
def selectTopMovesByQuickHeuristic (state : BoardState) (moves : List Move)
    (count : ℕ) : List Move :=
  if moves.length ≤ count then moves
  else
    ((sortByScoreDesc (moves.map fun move =>
      (move, calculateScoreDelta state (applyMove state move) move))).take count).map (·.1)

/-- `estimateOrderBestMove`: the best full-board score Order can reach
in one reply, sampling the top-50 moves by quick score delta. -/
def estimateOrderBestMove (state : BoardState) : ℚ :=
  let currentScore := calculateFullBoardScore state
  let allMoves := getAllLegalMoves state
  let topMoves := selectTopMovesByQuickHeuristic state allMoves 50
  topMoves.foldl (fun bestScore move =>
    let score := calculateFullBoardScore (applyMove state move)
    if bestScore < score then score else bestScore) currentScore

/-- `evaluateSpoilerPlacement`: lower is better for Chaos; Order's
estimated best reply dominates (× 100). -/
def evaluateSpoilerPlacement (gameState : GameState) (position : ℕ) (color : Col) : ℚ :=
  let newState := applyPlacement gameState.state position color
  let patternBreaking := evaluatePatternBreaking newState position color
  let opportunityDenial := evaluateOpportunityDenial newState position
  let bagAwareness := evaluateBagAwareness newState position color
  let orderBestScore := estimateOrderBestMove newState
  orderBestScore * 100 + -patternBreaking * 50 + -opportunityDenial * 30 +
    -bagAwareness * 20

/-- The candidate loop of the Spoiler `chaosNextTurn`: keep the cell
with the strictly lowest score (initial best is the first empty cell,
initial threshold `Infinity`). -/
def spoilLoop (gameState : GameState) (color : Col) :
    List ℕ → ℕ → JNum → ℕ
  | [], best, _ => best
  | position :: rest, best, lowest =>
    let score := evaluateSpoilerPlacement gameState position color
    if jlt (JNum.num score) lowest then spoilLoop gameState color rest position (JNum.num score)
    else spoilLoop gameState color rest best lowest

/-- `chaosNextTurn` (Spoiler strategy).  On a full board the source
reads `emptyPositions[0]`, which is `undefined`, and the formatted
result is the malformed address string "\x00NaN"; that failure path is
modelled as `none`. -/
def chaosNextTurn (gameState : GameState) : Option ChaosMove :=
  let color := gameState.nextToken
  let emptyPositions := getEmptyPositions gameState.state
  match emptyPositions with
  | [] => none
  | p0 :: _ =>
    some (formatChaosMove (spoilLoop gameState color emptyPositions p0 JNum.pinf))

/-- `getPositionalValue`: phase-dependent center preference. -/
def getPositionalValue (position : ℕ) (phase : Phase) : ℚ :=
  let c := indexToCoords position
  let centerDist := ((c.1 : ℤ) - 3).natAbs + ((c.2 : ℤ) - 3).natAbs
  match phase with
  | Phase.early => ((6 : ℚ) - centerDist) * 2
  | Phase.mid => 5
  | Phase.late => 3

/-- `evaluateCompleteSpoilerPlacement`: the Spoiler evaluation used by
the hybrid strategy (pattern breaking and bag awareness read the
pre-placement board here). -/
def evaluateCompleteSpoilerPlacement (gameState : GameState) (position : ℕ) : ℚ :=
  let color := gameState.nextToken
  let state := gameState.state
  let phase := determineGamePhase state
  let newState := applyPlacement state position color
  let patternBreaking := evaluatePatternBreaking state position color
  let opportunityDenial := evaluateOpportunityDenial newState position
  let bagAwareness := evaluateBagAwareness state position color
  let orderBestScore := estimateOrderBestMove newState
  let positional := getPositionalValue position phase
  orderBestScore * 100 + -patternBreaking * 50 + -opportunityDenial * 30 +
    -bagAwareness * 20 + -positional * 10

/-- `countColorRuns`: number of maximal same-color segments among the
filled cells of a line. -/
def countColorRuns (sequence : List Col) : ℕ :=
  (sequence.filter (fun c => c != Col.empty)).foldl
    (fun acc c => if some c ≠ acc.2 then (acc.1 + 1, some c) else acc)
    ((0 : ℕ), (Option.none : Option Col)) |>.1

/-- `evaluateColorFragmentation`: +5 per additional run the placement
creates in its row and in its column. -/
def evaluateColorFragmentation (state : BoardState) (position : ℕ) (color : Col) : ℚ :=
  let c := indexToCoords position
  let rowColors := getRow state c.1
  let rowRunsBefore := countColorRuns rowColors
  let rowRunsAfter := countColorRuns (rowColors.set c.2 color)
  let colColors := getColumn state c.2
  let colRunsBefore := countColorRuns colColors
  let colRunsAfter := countColorRuns (colColors.set c.1 color)
  ((rowRunsAfter : ℚ) - rowRunsBefore) * 5 + ((colRunsAfter : ℚ) - colRunsBefore) * 5

/-- `wouldBreakPalindrome`: the position is empty in the window, its
mirror cell is filled, and the placed color differs from the mirror. -/
def wouldBreakPalindrome (segment : List Col) (position : ℕ) (color : Col) : Bool :=
  let len := segment.length
  let mirror := len - 1 - position
  if segment.getD position Col.empty == Col.empty &&
      segment.getD mirror Col.empty != Col.empty then
    color != segment.getD mirror Col.empty
  else false

/-- `checkPalindromeBreaking`: add the window length for every row or
column window in which the placement breaks a potential palindrome. -/
def checkPalindromeBreaking (state : BoardState) (position : ℕ) (color : Col) : ℚ :=
  let c := indexToCoords position
  let rowColors := getRow state c.1
  let colColors := getColumn state c.2
  ((List.range 6).map (fun k =>
    let len := k + 2
    ((((List.range (7 - len + 1)).filter fun start =>
        start ≤ c.2 && c.2 < start + len &&
          wouldBreakPalindrome ((rowColors.drop start).take len) (c.2 - start) color).length : ℚ) +
      (((List.range (7 - len + 1)).filter fun start =>
        start ≤ c.1 && c.1 < start + len &&
          wouldBreakPalindrome ((colColors.drop start).take len) (c.1 - start) color).length : ℚ)) * len)).sum

/-- `evaluateSymmetryBreaking`: reward differing from the horizontal
and vertical mirror cells, penalise matching them, plus the palindrome
breaking bonus. -/
def evaluateSymmetryBreaking (state : BoardState) (position : ℕ) (color : Col) : ℚ :=
  let c := indexToCoords position
  let mirrorColor := cellAt state (c.1 * 7 + (6 - c.2))
  let mirrorColorV := cellAt state ((6 - c.1) * 7 + c.2)
  (if mirrorColor != Col.empty && mirrorColor != color then (10 : ℚ)
   else if mirrorColor == color then -5 else 0) +
  (if mirrorColorV != Col.empty && mirrorColorV != color then (10 : ℚ)
   else if mirrorColorV == color then -5 else 0) +
  checkPalindromeBreaking state position color

/-- `countEmptyToLeft`. -/
def countEmptyToLeft (state : BoardState) (row col : ℕ) : ℕ :=
  (((List.range col).map fun k => col - 1 - k).takeWhile fun c =>
    cellAt state (row * 7 + c) == Col.empty).length

/-- `countEmptyToRight`. -/
def countEmptyToRight (state : BoardState) (row col : ℕ) : ℕ :=
  (((List.range (6 - col)).map fun k => col + 1 + k).takeWhile fun c =>
    cellAt state (row * 7 + c) == Col.empty).length

/-- `countEmptyUp`. -/
def countEmptyUp (state : BoardState) (row col : ℕ) : ℕ :=
  (((List.range row).map fun k => row - 1 - k).takeWhile fun r =>
    cellAt state (r * 7 + col) == Col.empty).length

/-- `countEmptyDown`. -/
def countEmptyDown (state : BoardState) (row col : ℕ) : ℕ :=
  (((List.range (6 - row)).map fun k => row + 1 + k).takeWhile fun r =>
    cellAt state (r * 7 + col) == Col.empty).length

/-- `evaluateGapSpacing`: +5 for each direction in which the created
gap has odd length. -/
def evaluateGapSpacing (state : BoardState) (position : ℕ) : ℚ :=
  let c := indexToCoords position
  (if countEmptyToLeft state c.1 c.2 % 2 = 1 then (5 : ℚ) else 0) +
  (if countEmptyToRight state c.1 c.2 % 2 = 1 then (5 : ℚ) else 0) +
  (if countEmptyUp state c.1 c.2 % 2 = 1 then (5 : ℚ) else 0) +
  (if countEmptyDown state c.1 c.2 % 2 = 1 then (5 : ℚ) else 0)

/-- `getZone`: 3 × 3 zone index, `Math.floor(coord / 2.33)` clamped to
0-2. -/
def getZone (position : ℕ) : ℕ :=
  let c := indexToCoords position
  let zoneRow := (Int.floor ((c.1 : ℚ) / (233 / 100))).toNat
  let zoneCol := (Int.floor ((c.2 : ℚ) / (233 / 100))).toNat
  min zoneRow 2 * 3 + min zoneCol 2

/-- `getColorsInZone`: the distinct colors present in a zone (a JS
`Set`, modelled as a first-occurrence list). -/
def getColorsInZone (state : BoardState) (zone : ℕ) : List Col :=
  let zoneRow := zone / 3
  let zoneCol := zone % 3
  let rowStart := zoneRow * 2
  let rowEnd := min (rowStart + 3) 7
  let colStart := zoneCol * 2
  let colEnd := min (colStart + 3) 7
  (((List.range (rowEnd - rowStart)).map (· + rowStart)).flatMap fun r =>
    ((List.range (colEnd - colStart)).map (· + colStart)).map fun c =>
      cellAt state (r * 7 + c)).foldl
    (fun acc color =>
      if color != Col.empty && !acc.contains color then acc ++ [color] else acc) []

/-- `evaluateZoneControl`: reward color diversity inside the placed
cell's 3 × 3 zone. -/
def evaluateZoneControl (state : BoardState) (position : ℕ) (color : Col) : ℚ :=
  let zone := getZone position
  let zoneColors := getColorsInZone state zone
  if !zoneColors.contains color then 8
  else
    let colorCount := (zoneColors.filter fun c => c == color).length
    max 0 ((5 : ℚ) - colorCount)

/-- `evaluateEdgeStrategy`: phase-dependent edge / center preference
(the corner branches after the edge test are dead, as in the source). -/
def evaluateEdgeStrategy (state : BoardState) (position : ℕ) (phase : Phase) : ℚ :=
  let c := indexToCoords position
  let isEdge := c.1 = 0 || c.1 = 6 || c.2 = 0 || c.2 = 6
  let isCorner := (c.1 = 0 || c.1 = 6) && (c.2 = 0 || c.2 = 6)
  let isCenter := 2 ≤ c.1 && c.1 ≤ 4 && 2 ≤ c.2 && c.2 ≤ 4
  match phase with
  | Phase.early =>
    if isCenter then 10 else if isEdge then 5 else if isCorner then 3 else 7
  | Phase.mid =>
    if isCenter then 8 else if isEdge then 6 else if isCorner then 4 else 7
  | Phase.late =>
    if isEdge then 10 else if isCenter then 8 else if isCorner then 7 else 6

/-- `evaluateEntropy`: weighted sum of the five gap-creation
components. -/
def evaluateEntropy (gameState : GameState) (position : ℕ) (color : Col) : ℚ :=
  let state := gameState.state
  let phase := determineGamePhase state
  let fragmentation := evaluateColorFragmentation state position color
  let symmetry := evaluateSymmetryBreaking state position color
  let gapSpacing := evaluateGapSpacing state position
  let zoneControl := evaluateZoneControl state position color
  let edgeStrategy := evaluateEdgeStrategy state position phase
  fragmentation * 40 + symmetry * 35 + gapSpacing * 15 + zoneControl * 20 +
    edgeStrategy * 10

/-- The candidate loop of `chaosNextTurnHybrid`: maximise the
phase-weighted blend of the normalised Spoiler and entropy scores. -/
def hybridLoop (gameState : GameState) (color : Col) (spoilerWeight gapWeight : ℚ) :
    List ℕ → ℕ → JNum → ℕ
  | [], best, _ => best
  | position :: rest, best, bestScore =>
    let spoilerScore := -(evaluateCompleteSpoilerPlacement gameState position)
    let gapScore := evaluateEntropy gameState position color
    let combinedScore := spoilerScore / 100 * spoilerWeight + gapScore / 100 * gapWeight
    if jlt bestScore (JNum.num combinedScore) then
      hybridLoop gameState color spoilerWeight gapWeight rest position (JNum.num combinedScore)
    else hybridLoop gameState color spoilerWeight gapWeight rest best bestScore

/-- `chaosNextTurnHybrid`: phase-dependent blend of the Spoiler and
gap-creation strategies.  The phase weights are the source's decimal
literals 0.4/0.6, 0.6/0.4 and 0.8/0.2 read as exact rationals; the
full-board `undefined` path is modelled as `none` as in
`chaosNextTurn`. -/
def chaosNextTurnHybrid (gameState : GameState) : Option ChaosMove :=
  let color := gameState.nextToken
  let phase := determineGamePhase gameState.state
  let emptyPositions := getEmptyPositions gameState.state
  let w : ℚ × ℚ :=
    match phase with
    | Phase.early => (2 / 5, 3 / 5)
    | Phase.mid => (3 / 5, 2 / 5)
    | Phase.late => (4 / 5, 1 / 5)
  match emptyPositions with
  | [] => none
  | p0 :: _ =>
    some (formatChaosMove (hybridLoop gameState color w.1 w.2 emptyPositions p0 JNum.ninf))

end Chaos

/-- Empty board. -/
def emptyBoard : BoardState := List.replicate 49 Col.empty

/-- Board that is empty except for one R token at index 24 (the center
cell d4). -/
def board24 : BoardState := emptyBoard.set 24 Col.R

/-- A wall clock that never advances: no deadline ever fires. -/
def clock0 : ℕ → ℚ := fun _ => 0

/-- Concrete mover state for the transposition-cache comparison: a
single R token at index 15 (cell c2). -/
def gsC3 : GameState := ⟨emptyBoard.set 15 Col.R, Col.G, Turn.order⟩

/-- Concrete mover state for the deadline-override scenario: R at index
10 (b4), G at index 20 (c7). -/
def gsC4 : GameState := ⟨(emptyBoard.set 10 Col.R).set 20 Col.G, Col.Y, Turn.order⟩

/-- Wall clock for the deadline-override scenario: elapsed time stays 0
through the complete depth-1 iteration and the first depth-2 candidate,
then jumps past the 2000 ms deadline. -/
def clockC4 : ℕ → ℚ := fun k => if k ≤ 51 then 0 else 2100

/-- Empty-board game state. -/
def gsEmpty : GameState := ⟨emptyBoard, Col.R, Turn.order⟩

/-- Row `r` of the full Latin-square board: the seven colors rotated
left by `r`. -/
def latinRow (r : ℕ) : List Col := COLORS.drop r ++ COLORS.take r

/-- A full board (every cell occupied, each color exactly 7 times). -/
def fullLatin : BoardState := (List.range 7).flatMap latinRow

/-- Full-board game states for the two roles. -/
def gsFullOrder : GameState := ⟨fullLatin, Col.R, Turn.order⟩

def gsFullChaos : GameState := ⟨fullLatin, Col.R, Turn.chaos⟩

/-- The full Latin board with cell 0 cleared: exactly one empty cell. -/
def latin48 : BoardState := fullLatin.set 0 Col.empty

def gs48 : GameState := ⟨latin48, Col.R, Turn.chaos⟩

/-- A board whose top row is empty and whose other six rows are full:
its only legal slides are the seven one-step upward moves of row-1
pieces, and those seven child boards have pairwise distinct
serializations. -/
def topHole : BoardState := List.replicate 7 Col.empty ++ (List.range 6).flatMap latinRow

def gsTopHole : GameState := ⟨topHole, Col.R, Turn.order⟩

/-! Theorems. -/

/-- C1: the claim says a line whose filled cells form AAAAAAA scores
exactly 77 and one forming ABCBA scores exactly 8 (matching the game
rules, whose table values are whole-line totals with nested runs
already included).  The code instead applies the table value to every
palindromic sub-run and sums, double-counting the nested runs: the
AAAAAAA line evaluates to 378 and the ABCBA line to 11. -/
theorem c1_scoreSequence_values_at_failing_inputs :
    scoreSequence [Col.R, Col.R, Col.R, Col.R, Col.R, Col.R, Col.R] = 378 ∧
    scoreSequence [Col.R, Col.G, Col.Y, Col.G, Col.R] = 11 ∧
    (378 : ℚ) ≠ 77 ∧ (11 : ℚ) ≠ 8 := by
  exact ⟨by with_unfolding_all decide, by with_unfolding_all decide,
    by norm_num, by norm_num⟩

/-- C2 counterexample: on the board that is empty except for a token
at cell index 24, move generation yields 12 legal slides, not the
claimed 24 (a rook in the middle of an empty 7×7 board reaches the 6
other cells of its row and the 6 other cells of its column). -/
theorem c2_counterexample_center_piece_has_12_moves :
    (getAllLegalMoves board24).length = 12 ∧ (12 : ℕ) ≠ 24 := by
  exact ⟨by decide, by decide⟩

/-- Length bound for the upward walk: at most `r` cells lie above row
`r`. -/
theorem rayAux_length_up (state : BoardState) (fromI : ℕ) :
    ∀ (fuel : ℕ) (r c : ℤ), (rayAux state fromI (-1) 0 fuel r c).length ≤ r.toNat := by
  intro fuel
  induction fuel with
  | zero => intro r c; simp [rayAux]
  | succ n ih =>
    intro r c
    rw [rayAux]
    split
    · simp
    · dsimp only
      split
      · simp
      · rename_i hvalid _
        have h0 : (0 : ℤ) ≤ r + -1 := by
          simp [isValidCoord] at hvalid
          omega
        have h1 := ih (r + -1) (c + 0)
        simp only [List.length_cons]
        omega

/-- Length bound for the downward walk. -/
theorem rayAux_length_down (state : BoardState) (fromI : ℕ) :
    ∀ (fuel : ℕ) (r c : ℤ), (rayAux state fromI 1 0 fuel r c).length ≤ (6 - r).toNat := by
  intro fuel
  induction fuel with
  | zero => intro r c; simp [rayAux]
  | succ n ih =>
    intro r c
    rw [rayAux]
    split
    · simp
    · dsimp only
      split
      · simp
      · rename_i hvalid _
        have h0 : r + 1 < 7 := by
          simp [isValidCoord] at hvalid
          omega
        have h1 := ih (r + 1) (c + 0)
        simp only [List.length_cons]
        omega

/-- Length bound for the leftward walk. -/
theorem rayAux_length_left (state : BoardState) (fromI : ℕ) :
    ∀ (fuel : ℕ) (r c : ℤ), (rayAux state fromI 0 (-1) fuel r c).length ≤ c.toNat := by
  intro fuel
  induction fuel with
  | zero => intro r c; simp [rayAux]
  | succ n ih =>
    intro r c
    rw [rayAux]
    split
    · simp
    · dsimp only
      split
      · simp
      · rename_i hvalid _
        have h0 : (0 : ℤ) ≤ c + -1 := by
          simp [isValidCoord] at hvalid
          omega
        have h1 := ih (r + 0) (c + -1)
        simp only [List.length_cons]
        omega

/-- Length bound for the rightward walk. -/
theorem rayAux_length_right (state : BoardState) (fromI : ℕ) :
    ∀ (fuel : ℕ) (r c : ℤ), (rayAux state fromI 0 1 fuel r c).length ≤ (6 - c).toNat := by
  intro fuel
  induction fuel with
  | zero => intro r c; simp [rayAux]
  | succ n ih =>
    intro r c
    rw [rayAux]
    split
    · simp
    · dsimp only
      split
      · simp
      · rename_i hvalid _
        have h0 : c + 1 < 7 := by
          simp [isValidCoord] at hvalid
          omega
        have h1 := ih (r + 0) (c + 1)
        simp only [List.length_cons]
        omega

/-- A piece reaches at most 12 destinations: its walk lengths in the
four directions are bounded by the distances to the board edges. -/
theorem pieceMoves_length_le (state : BoardState) (fromI : ℕ) (h : fromI < 49) :
    (pieceMoves state fromI).length ≤ 12 := by
  have hr : fromI / 7 ≤ 6 := by omega
  have hc : fromI % 7 ≤ 6 := by omega
  have h1 := rayAux_length_up state fromI 7 ((fromI / 7 : ℕ) : ℤ) ((fromI % 7 : ℕ) : ℤ)
  have h2 := rayAux_length_down state fromI 7 ((fromI / 7 : ℕ) : ℤ) ((fromI % 7 : ℕ) : ℤ)
  have h3 := rayAux_length_left state fromI 7 ((fromI / 7 : ℕ) : ℤ) ((fromI % 7 : ℕ) : ℤ)
  have h4 := rayAux_length_right state fromI 7 ((fromI / 7 : ℕ) : ℤ) ((fromI % 7 : ℕ) : ℤ)
  simp only [pieceMoves, DIRECTIONS, indexToCoords, List.flatMap_cons, List.flatMap_nil,
    List.append_nil, List.length_append]
  omega

/-- C2 (amended): on a board that is empty except that cell index 24
holds some color, move generation yields exactly 12 legal slides for
that piece (3 in each of the 4 directions from the center of a 7×7
board); and for every board and every piece, move generation yields
between 0 and 12 destinations for that piece.  The claimed counts of
24 are unreachable for rook-style slides on a 7×7 board. -/
theorem c2_amended_move_generation_counts :
    (∀ c : Col, c ≠ Col.empty →
      (getAllLegalMoves (emptyBoard.set 24 c)).length = 12) ∧
    (∀ (state : BoardState) (fromI : ℕ), fromI < 49 →
      (getLegalMovesForPiece state fromI).length ≤ 12) := by
  constructor
  · intro c hc
    cases c
    case empty => exact absurd rfl hc
    all_goals decide
  · intro state fromI h
    unfold getLegalMovesForPiece
    split
    · simp
    · exact pieceMoves_length_le state fromI h

/-- C2 witness: the amended theorem applied to the color R and to the
single-token board at its piece. -/
theorem c2_witness :
    (getAllLegalMoves (emptyBoard.set 24 Col.R)).length = 12 ∧
    (getLegalMovesForPiece board24 24).length ≤ 12 :=
  ⟨c2_amended_move_generation_counts.1 Col.R (by decide),
   c2_amended_move_generation_counts.2 board24 24 (by decide)⟩

/-- When the deadline has already fired at the first candidate check,
the root loop returns its incoming best move unchanged. -/
theorem idLoop_move_of_stopped (ctx : SCtx) (gs : GameState) (d : ℕ) (moves : List Move)
    (bs : JNum) (bm : Option Move) (s : SSt) (h : (2000 : ℚ) ≤ ctx.clock s.polls) :
    (Minimax.idLoop ctx gs d moves bs bm s).1.move = bm := by
  cases moves with
  | nil => rfl
  | cons m rest =>
    rw [Minimax.idLoop]
    simp [pollShouldStop, h]

/-- C4 (amended): an iteration of the iterative-deepening driver that
is stopped by the deadline before examining its first candidate
returns a null move, and so never replaces the previous result; an
iteration that examined at least one candidate before being cut off
does return a (possibly incomplete) best move, which the driver then
keeps in place of the shallower complete result. -/
theorem c4_amended_cutoff_before_first_candidate_yields_null :
    ∀ (ctx : SCtx) (gameState : GameState) (maxDepth : ℕ) (s : SSt),
      (2000 : ℚ) ≤ ctx.clock s.polls →
      (Minimax.iterativeDeepening ctx gameState maxDepth s).1.move = none := by
  intro ctx gameState maxDepth s h
  exact idLoop_move_of_stopped ctx gameState maxDepth _ JNum.ninf none s h

/-- C4 witness: the amended theorem at a concrete state, depth and an
already-expired clock. -/
theorem c4_witness :
    (Minimax.iterativeDeepening ⟨fun _ => 2000, true⟩ gsC4 2 ⟨0, []⟩).1.move = none :=
  c4_amended_cutoff_before_first_candidate_yields_null ⟨fun _ => 2000, true⟩ gsC4 2 ⟨0, []⟩
    (le_refl 2000)

set_option maxRecDepth 40000 in
/-- C4 counterexample: with the concrete two-token state `gsC4` and a
deadline that fires after the complete depth-1 iteration and one
depth-2 candidate, the driver returns "b4-a4" — the single candidate
the cut-off depth-2 iteration examined — although the deepest fully
completed depth (depth 1) found "b4-d4".  The cut-off deeper iteration
thus replaces the complete shallower result. -/
theorem c4_counterexample_partial_deeper_iteration_overrides :
    Minimax.orderNextTurn gsC4 clockC4 = ⟨"b4-a4"⟩ ∧
    formatOrderMove (Minimax.iterativeDeepening ⟨clockC4, true⟩ gsC4 1 ⟨0, []⟩).1.move =
      ⟨"b4-d4"⟩ ∧
    Minimax.orderNextTurn gsC4 clockC4 ≠
      formatOrderMove (Minimax.iterativeDeepening ⟨clockC4, true⟩ gsC4 1 ⟨0, []⟩).1.move := by
  refine ⟨?_, ?_, ?_⟩
  · with_unfolding_all decide
  · with_unfolding_all decide
  · with_unfolding_all decide

set_option maxRecDepth 40000 in
/-- C3 counterexample: for the single-token state `gsC3` and fixed
depth 1, the search with the transposition cache enabled returns a
different final result from the cache-disabled run (the board key
`state.join('')` collapses every child of a one-token board to the
same key "R", so from the second child on the cache returns the first
child's evaluation). -/
theorem c3_counterexample_cache_changes_result :
    (Minimax.iterativeDeepening ⟨clock0, true⟩ gsC3 1 ⟨0, []⟩).1.score ≠
    (Minimax.iterativeDeepening ⟨clock0, false⟩ gsC3 1 ⟨0, []⟩).1.score := by
  with_unfolding_all decide

set_option maxRecDepth 40000 in
/-- C10 counterexample: on the empty board the evaluator used by the
minimax engine differs from the six-component formula of the claim
(−735 against −780): the minimax engine's evaluator has only four
components, with weights 100 / 50 / 20 / −30. -/
theorem c10_counterexample_minimax_evaluator_difference :
    Minimax.evaluatePosition gsEmpty = -735 ∧
    specEvaluatePosition gsEmpty = -780 ∧
    Minimax.evaluatePosition gsEmpty ≠ specEvaluatePosition gsEmpty := by
  refine ⟨?_, ?_, ?_⟩
  · with_unfolding_all decide
  · with_unfolding_all decide
  · with_unfolding_all decide

/-- C10 (amended): the heuristic engine's mover-side evaluator is
exactly the claimed six-component weighted sum (immediate × 100,
pattern potential × 50, board control × 30, opponent opportunity
× −40, announced-color preparation × 20, line fertility × 25); the
minimax engine's evaluator is a different, four-component sum. -/
theorem c10_amended_heuristic_evaluator_is_six_component_sum :
    ∀ gameState : GameState,
      Heuristic.evaluatePosition gameState = specEvaluatePosition gameState := by
  intro gameState
  unfold Heuristic.evaluatePosition specEvaluatePosition
  ring

/-- C7: the process-wide score table has exactly 30 entries mapping
each palindrome signature of lengths 2-7 to the contracted points
(AA = 2 through AAAAAAA = 77), and `scorePalindrome` falls back to the
sequence's raw length whenever the signature is absent from the
table. -/
theorem c7_score_table_and_length_fallback :
    (PALINDROME_SCORES.length = 30 ∧
      PALINDROME_SCORES.lookup "AA" = some 2 ∧
      PALINDROME_SCORES.lookup "ABA" = some 3 ∧
      PALINDROME_SCORES.lookup "AAA" = some 7 ∧
      PALINDROME_SCORES.lookup "ABBA" = some 6 ∧
      PALINDROME_SCORES.lookup "AAAA" = some 16 ∧
      PALINDROME_SCORES.lookup "ABCBA" = some 8 ∧
      PALINDROME_SCORES.lookup "AABAA" = some 12 ∧
      PALINDROME_SCORES.lookup "ABABA" = some 14 ∧
      PALINDROME_SCORES.lookup "ABBBA" = some 12 ∧
      PALINDROME_SCORES.lookup "AAAAA" = some 30 ∧
      PALINDROME_SCORES.lookup "AABBAA" = some 16 ∧
      PALINDROME_SCORES.lookup "ABAABA" = some 18 ∧
      PALINDROME_SCORES.lookup "ABBBBA" = some 22 ∧
      PALINDROME_SCORES.lookup "ABCCBA" = some 12 ∧
      PALINDROME_SCORES.lookup "AAAAAA" = some 50 ∧
      PALINDROME_SCORES.lookup "ABCDCBA" = some 15 ∧
      PALINDROME_SCORES.lookup "AAABAAA" = some 29 ∧
      PALINDROME_SCORES.lookup "AABABAA" = some 25 ∧
      PALINDROME_SCORES.lookup "AABBBAA" = some 23 ∧
      PALINDROME_SCORES.lookup "AABCBAA" = some 19 ∧
      PALINDROME_SCORES.lookup "ABAAABA" = some 25 ∧
      PALINDROME_SCORES.lookup "ABABABA" = some 27 ∧
      PALINDROME_SCORES.lookup "ABACABA" = some 21 ∧
      PALINDROME_SCORES.lookup "ABBABBA" = some 27 ∧
      PALINDROME_SCORES.lookup "ABBBBBA" = some 37 ∧
      PALINDROME_SCORES.lookup "ABBCBBA" = some 19 ∧
      PALINDROME_SCORES.lookup "ABCACBA" = some 15 ∧
      PALINDROME_SCORES.lookup "ABCBCBA" = some 21 ∧
      PALINDROME_SCORES.lookup "ABCCCBA" = some 19 ∧
      PALINDROME_SCORES.lookup "AAAAAAA" = some 77) ∧
    (∀ seq : List Col,
      PALINDROME_SCORES.lookup (getPalindromeSignature seq) = none →
      scorePalindrome seq = seq.length) := by
  constructor
  · with_unfolding_all decide
  · intro seq h
    unfold scorePalindrome
    rw [h]
    rfl

/-- C7 witness: the table facts, and the fallback applied to the
two-cell sequence RG, whose signature "AB" is absent from the table. -/
theorem c7_witness :
    PALINDROME_SCORES.lookup (getPalindromeSignature [Col.R, Col.G]) = none ∧
    scorePalindrome [Col.R, Col.G] = 2 :=
  ⟨by decide, c7_score_table_and_length_fallback.2 [Col.R, Col.G] (by decide)⟩

/-- The Spoiler candidate loop returns its incoming best cell or one of
the candidates. -/
theorem spoilLoop_mem (gameState : GameState) (color : Col) :
    ∀ (l : List ℕ) (best : ℕ) (lowest : JNum),
      Chaos.spoilLoop gameState color l best lowest = best ∨
      Chaos.spoilLoop gameState color l best lowest ∈ l := by
  intro l
  induction l with
  | nil => intro best lowest; left; rfl
  | cons p rest ih =>
    intro best lowest
    rw [Chaos.spoilLoop]
    split
    · rcases ih p _ with h | h
      · right; rw [h]; exact List.mem_cons_self p rest
      · right; exact List.mem_cons_of_mem p h
    · rcases ih best lowest with h | h
      · left; exact h
      · right; exact List.mem_cons_of_mem p h

/-- The hybrid candidate loop returns its incoming best cell or one of
the candidates. -/
theorem hybridLoop_mem (gameState : GameState) (color : Col) (sw gw : ℚ) :
    ∀ (l : List ℕ) (best : ℕ) (bestScore : JNum),
      Chaos.hybridLoop gameState color sw gw l best bestScore = best ∨
      Chaos.hybridLoop gameState color sw gw l best bestScore ∈ l := by
  intro l
  induction l with
  | nil => intro best bestScore; left; rfl
  | cons p rest ih =>
    intro best bestScore
    rw [Chaos.hybridLoop]
    split
    · rcases ih p _ with h | h
      · right; rw [h]; exact List.mem_cons_self p rest
      · right; exact List.mem_cons_of_mem p h
    · rcases ih best bestScore with h | h
      · left; exact h
      · right; exact List.mem_cons_of_mem p h

/-- C8 (amended): for every game state with at least one empty cell,
both Chaos decision functions return the address of a cell that is
empty on the input board (and in range, hence a syntactically valid
single-cell address); on a full board the source indexes
`emptyPositions[0]` = `undefined` and produces a malformed result, so
the claim cannot hold there. -/
theorem c8_amended_chaos_returns_empty_cell_address :
    ∀ gameState : GameState, getEmptyPositions gameState.state ≠ [] →
      (∃ i ∈ getEmptyPositions gameState.state, i < 49 ∧
        cellAt gameState.state i = Col.empty ∧
        Chaos.chaosNextTurn gameState = some (formatChaosMove i)) ∧
      (∃ j ∈ getEmptyPositions gameState.state, j < 49 ∧
        cellAt gameState.state j = Col.empty ∧
        Chaos.chaosNextTurnHybrid gameState = some (formatChaosMove j)) := by
  intro gameState hne
  have hmem : ∀ i ∈ getEmptyPositions gameState.state,
      i < 49 ∧ cellAt gameState.state i = Col.empty := by
    intro i hi
    unfold getEmptyPositions at hi
    rw [List.mem_filter] at hi
    refine ⟨List.mem_range.mp hi.1, ?_⟩
    have := hi.2
    simpa using this
  constructor
  · unfold Chaos.chaosNextTurn
    cases he : getEmptyPositions gameState.state with
    | nil => exact absurd he hne
    | cons p0 rest =>
      have h := spoilLoop_mem gameState gameState.nextToken (p0 :: rest) p0 JNum.pinf
      set b := Chaos.spoilLoop gameState gameState.nextToken (p0 :: rest) p0 JNum.pinf with hb
      have hbl : b ∈ p0 :: rest := by
        rcases h with h | h
        · rw [h]; exact List.mem_cons_self p0 rest
        · exact h
      have hbg : b ∈ getEmptyPositions gameState.state := by rw [he]; exact hbl
      exact ⟨b, hbl, (hmem b hbg).1, (hmem b hbg).2, rfl⟩
  · unfold Chaos.chaosNextTurnHybrid
    cases he : getEmptyPositions gameState.state with
    | nil => exact absurd he hne
    | cons p0 rest =>
      set w : ℚ × ℚ :=
        match determineGamePhase gameState.state with
        | Phase.early => ((2 : ℚ) / 5, (3 : ℚ) / 5)
        | Phase.mid => ((3 : ℚ) / 5, (2 : ℚ) / 5)
        | Phase.late => ((4 : ℚ) / 5, (1 : ℚ) / 5) with hw
      have h := hybridLoop_mem gameState gameState.nextToken w.1 w.2 (p0 :: rest) p0 JNum.ninf
      set b := Chaos.hybridLoop gameState gameState.nextToken w.1 w.2 (p0 :: rest) p0 JNum.ninf with hb
      have hbl : b ∈ p0 :: rest := by
        rcases h with h | h
        · rw [h]; exact List.mem_cons_self p0 rest
        · exact h
      have hbg : b ∈ getEmptyPositions gameState.state := by rw [he]; exact hbl
      exact ⟨b, hbl, (hmem b hbg).1, (hmem b hbg).2, rfl⟩

/-- C8 counterexample: on a full board there is no empty cell, and
both Chaos decision functions take the `undefined` fallback path
(modelled `none`): the result is not a valid address of an empty cell,
so the claim fails for this input game state. -/
theorem c8_counterexample_full_board :
    getEmptyPositions gsFullChaos.state = [] ∧
    Chaos.chaosNextTurn gsFullChaos = none ∧
    Chaos.chaosNextTurnHybrid gsFullChaos = none := by
  refine ⟨?_, ?_, ?_⟩
  · decide
  · with_unfolding_all decide
  · with_unfolding_all decide

/-- C8 witness: the amended theorem at the one-empty-cell state
`gs48`. -/
theorem c8_witness :
    (∃ i ∈ getEmptyPositions gs48.state, i < 49 ∧
      cellAt gs48.state i = Col.empty ∧
      Chaos.chaosNextTurn gs48 = some (formatChaosMove i)) ∧
    (∃ j ∈ getEmptyPositions gs48.state, j < 49 ∧
      cellAt gs48.state j = Col.empty ∧
      Chaos.chaosNextTurnHybrid gs48 = some (formatChaosMove j)) :=
  c8_amended_chaos_returns_empty_cell_address gs48 (by decide)

/-- Membership through stable insertion. -/
theorem mem_insertDesc {α : Type} (x y : α × ℚ) :
    ∀ l : List (α × ℚ), y ∈ insertDesc x l → y = x ∨ y ∈ l := by
  intro l
  induction l with
  | nil => intro h; simp [insertDesc] at h; exact Or.inl h
  | cons z zs ih =>
    intro h
    rw [insertDesc] at h
    split at h
    · rcases List.mem_cons.mp h with h | h
      · exact Or.inr (h ▸ List.mem_cons_self z zs)
      · rcases ih h with h | h
        · exact Or.inl h
        · exact Or.inr (List.mem_cons_of_mem z h)
    · rcases List.mem_cons.mp h with h | h
      · exact Or.inl h
      · exact Or.inr h

/-- Membership through the stable descending sort. -/
theorem mem_sortByScoreDesc {α : Type} (y : α × ℚ) :
    ∀ (l acc : List (α × ℚ)),
      y ∈ l.foldl (fun a x => insertDesc x a) acc → y ∈ acc ∨ y ∈ l := by
  intro l
  induction l with
  | nil => intro acc h; exact Or.inl h
  | cons z zs ih =>
    intro acc h
    rcases ih (insertDesc z acc) h with h | h
    · rcases mem_insertDesc z y acc h with h | h
      · exact Or.inr (h ▸ List.mem_cons_self z zs)
      · exact Or.inl h
    · exact Or.inr (List.mem_cons_of_mem z h)

/-- The heuristic move ordering only permutes the legal moves. -/
theorem orderMovesByHeuristic_subset (state : BoardState) (moves : List Move) (m : Move) :
    m ∈ Minimax.orderMovesByHeuristic state moves → m ∈ moves := by
  intro h
  unfold Minimax.orderMovesByHeuristic sortByScoreDesc at h
  rcases List.mem_map.mp h with ⟨pair, hpair, hfst⟩
  rcases mem_sortByScoreDesc pair _ [] hpair with h2 | h2
  · simp at h2
  · rcases List.mem_map.mp h2 with ⟨mv, hmv, hpe⟩
    rw [← hfst, ← hpe]
    exact hmv

/-- The root loop returns its incoming best move or one of the listed
candidates. -/
theorem idLoop_move_mem (ctx : SCtx) (gs : GameState) (d : ℕ) :
    ∀ (moves : List Move) (bs : JNum) (bm : Option Move) (s : SSt),
      (Minimax.idLoop ctx gs d moves bs bm s).1.move = bm ∨
      ∃ m ∈ moves, (Minimax.idLoop ctx gs d moves bs bm s).1.move = some m := by
  intro moves
  induction moves with
  | nil => intro bs bm s; exact Or.inl rfl
  | cons mv rest ih =>
    intro bs bm s
    rw [Minimax.idLoop]
    split
    · exact Or.inl rfl
    · dsimp only
      split
      · rcases ih _ (some mv) _ with h | ⟨m, hm, h⟩
        · exact Or.inr ⟨mv, List.mem_cons_self mv rest, h⟩
        · exact Or.inr ⟨m, List.mem_cons_of_mem mv hm, h⟩
      · rcases ih bs bm _ with h | ⟨m, hm, h⟩
        · exact Or.inl h
        · exact Or.inr ⟨m, List.mem_cons_of_mem mv hm, h⟩

/-- A fixed-depth search returns a null move or a legal move of the
input board. -/
theorem iterativeDeepening_move_mem (ctx : SCtx) (gs : GameState) (d : ℕ) (s : SSt) :
    (Minimax.iterativeDeepening ctx gs d s).1.move = none ∨
    ∃ m ∈ getAllLegalMoves gs.state,
      (Minimax.iterativeDeepening ctx gs d s).1.move = some m := by
  unfold Minimax.iterativeDeepening
  rcases idLoop_move_mem ctx gs d
      (Minimax.orderMovesByHeuristic gs.state (getAllLegalMoves gs.state)) JNum.ninf none s with
    h | ⟨m, hm, h⟩
  · exact Or.inl h
  · exact Or.inr ⟨m, orderMovesByHeuristic_subset gs.state _ m hm, h⟩

/-- The depth loop of the driver preserves the pass-or-legal
invariant of the best move. -/
theorem otLoop_move_mem (ctx : SCtx) (gs : GameState) :
    ∀ (fuel depth : ℕ) (bm : Option Move) (s : SSt),
      (bm = none ∨ ∃ m ∈ getAllLegalMoves gs.state, bm = some m) →
      ((Minimax.otLoop ctx gs fuel depth bm s).1 = none ∨
        ∃ m ∈ getAllLegalMoves gs.state, (Minimax.otLoop ctx gs fuel depth bm s).1 = some m) := by
  intro fuel
  induction fuel with
  | zero => intro depth bm s h; exact h
  | succ n ih =>
    intro depth bm s h
    rw [Minimax.otLoop]
    split
    · apply ih
      rcases iterativeDeepening_move_mem ctx gs depth (pollRemaining ctx s).2 with h2 | ⟨m, hm, h2⟩
      · rw [h2]; exact h
      · rw [h2]; exact Or.inr ⟨m, hm, rfl⟩
    · exact h

/-- C6: for every game state and every wall-clock behaviour (whenever
or never the deadline fires), `orderNextTurn` returns either the
literal token "pass" or the rendering of a slide that is legal for the
input board; and whenever the board has no legal slides it returns
"pass".  The embedding is total, so no input makes the driver fail. -/
theorem c6_orderNextTurn_pass_or_legal :
    (∀ (gameState : GameState) (clock : ℕ → ℚ),
      Minimax.orderNextTurn gameState clock = ⟨"pass"⟩ ∨
      ∃ m ∈ getAllLegalMoves gameState.state,
        Minimax.orderNextTurn gameState clock = formatOrderMove (some m)) ∧
    (∀ (gameState : GameState) (clock : ℕ → ℚ),
      getAllLegalMoves gameState.state = [] →
      Minimax.orderNextTurn gameState clock = ⟨"pass"⟩) := by
  have key : ∀ (gameState : GameState) (clock : ℕ → ℚ),
      (Minimax.otLoop ⟨clock, true⟩ gameState 5 1 none ⟨0, []⟩).1 = none ∨
      ∃ m ∈ getAllLegalMoves gameState.state,
        (Minimax.otLoop ⟨clock, true⟩ gameState 5 1 none ⟨0, []⟩).1 = some m := by
    intro gameState clock
    exact otLoop_move_mem ⟨clock, true⟩ gameState 5 1 none ⟨0, []⟩ (Or.inl rfl)
  constructor
  · intro gameState clock
    rcases key gameState clock with h | ⟨m, hm, h⟩
    · left
      unfold Minimax.orderNextTurn
      dsimp only
      rw [h]
      rfl
    · right
      refine ⟨m, hm, ?_⟩
      unfold Minimax.orderNextTurn
      dsimp only
      rw [h]
  · intro gameState clock hempty
    rcases key gameState clock with h | ⟨m, hm, h⟩
    · unfold Minimax.orderNextTurn
      dsimp only
      rw [h]
      rfl
    · rw [hempty] at hm
      exact absurd hm (List.not_mem_nil m)

/-- C6 witness: on the full board no slide is legal, and the driver
returns "pass" for an arbitrary clock. -/
theorem c6_witness :
    getAllLegalMoves gsFullOrder.state = [] ∧
    Minimax.orderNextTurn gsFullOrder clock0 = ⟨"pass"⟩ :=
  ⟨by decide, c6_orderNextTurn_pass_or_legal.2 gsFullOrder clock0 (by decide)⟩

theorem lruLookup_eq_none {cache : Cache} {k : String}
    (h : ¬ k ∈ cache.map Prod.fst) : cache.lookup k = none := by
  induction cache with
  | nil => rfl
  | cons kv rest ih =>
    simp only [List.map_cons, List.mem_cons, not_or] at h
    have hne : (k == kv.1) = false := beq_eq_false_iff_ne.mpr h.1
    cases kv with
    | mk a b =>
      simp only [List.lookup]
      simp only [List.map_cons, List.mem_cons] at hne ⊢
      rw [hne]
      exact ih h.2

theorem mem_keys_lruSet {cache : Cache} {key k : String} {v : ℚ} {n : ℕ}
    (h : k ∈ (lruSet cache key v n).map Prod.fst) :
    k = key ∨ k ∈ cache.map Prod.fst := by
  unfold lruSet at h
  dsimp only at h
  set c1 : Cache := if (cache.lookup key).isSome then cache.filter fun kv => kv.1 != key
    else cache with hc1
  have hc1sub : ∀ x, x ∈ c1.map Prod.fst → x ∈ cache.map Prod.fst := by
    intro x hx
    rw [hc1] at hx
    split at hx
    · rcases List.mem_map.mp hx with ⟨kv, hkv, he⟩
      exact he ▸ List.mem_map.mpr ⟨kv, List.mem_of_mem_filter hkv, rfl⟩
    · exact hx
  have hmem : k ∈ (c1 ++ [(key, v)]).map Prod.fst := by
    split at h
    · exact List.mem_map.mpr (by
        rcases List.mem_map.mp h with ⟨kv, hkv, he⟩
        exact ⟨kv, (List.drop_sublist 1 _).mem hkv, he⟩)
    · exact h
  rw [List.map_append] at hmem
  rcases List.mem_append.mp hmem with hx | hx
  · exact Or.inr (hc1sub k hx)
  · simp at hx
    exact Or.inl hx

theorem clock0_no_stop (p : ℕ) : (decide ((2000 : ℚ) ≤ clock0 p)) = false := by
  have h : ¬ (2000 : ℚ) ≤ clock0 p := by unfold clock0; norm_num
  exact decide_eq_false h

/-- A depth-0 minimax call under a cold clock with a fresh key: the
static evaluation is returned and cached. -/
theorem minimax0_cached_fresh (gs' : GameState) (p : ℕ) (cache : Cache)
    (h : ¬ Minimax.getBoardStateKey gs'.state ∈ cache.map Prod.fst) :
    Minimax.minimax ⟨clock0, true⟩ 0 gs' JNum.ninf JNum.pinf false ⟨p, cache⟩ =
      (JNum.num (Minimax.evaluatePosition gs'),
        ⟨p + 1, lruSet cache (Minimax.getBoardStateKey gs'.state)
          (Minimax.evaluatePosition gs') 5000⟩) := by
  rw [Minimax.minimax]
  simp only [pollShouldStop, clock0_no_stop, Bool.false_eq_true, if_false, if_true, ttGet,
    ttSet, lruGet, lruLookup_eq_none h]

/-- A depth-0 minimax call under a cold clock with the cache disabled:
the static evaluation is returned and the state only advances its poll
counter. -/
theorem minimax0_nocache (gs' : GameState) (p : ℕ) (cache2 : Cache) :
    Minimax.minimax ⟨clock0, false⟩ 0 gs' JNum.ninf JNum.pinf false ⟨p, cache2⟩ =
      (JNum.num (Minimax.evaluatePosition gs'), ⟨p + 1, cache2⟩) := by
  rw [Minimax.minimax]
  simp only [pollShouldStop, clock0_no_stop, Bool.false_eq_true, if_false, ttGet, ttSet]

/-- Root loop of a depth-1 search: when the keys of the remaining
children are pairwise distinct and none is already cached, the
cache-enabled and cache-disabled loops compute the same result. -/
theorem idLoop_depth1_cache_transparent (gs : GameState) :
    ∀ (moves : List Move) (bs : JNum) (bm : Option Move) (p : ℕ) (cache cache2 : Cache),
      (moves.map fun m => Minimax.getBoardStateKey (applyMove gs.state m)).Nodup →
      (∀ m ∈ moves, ¬ Minimax.getBoardStateKey (applyMove gs.state m) ∈ cache.map Prod.fst) →
      (Minimax.idLoop ⟨clock0, true⟩ gs 1 moves bs bm ⟨p, cache⟩).1 =
      (Minimax.idLoop ⟨clock0, false⟩ gs 1 moves bs bm ⟨p, cache2⟩).1 := by
  intro moves
  induction moves with
  | nil => intros; rfl
  | cons mv rest ih =>
    intro bs bm p cache cache2 hnd hfresh
    rw [Minimax.idLoop, Minimax.idLoop]
    simp only [pollShouldStop, clock0_no_stop, Bool.false_eq_true, if_false]
    rw [minimax0_cached_fresh _ _ _ (hfresh mv (List.mem_cons_self mv rest)),
      minimax0_nocache]
    dsimp only
    have hrest1 : (rest.map fun m => Minimax.getBoardStateKey (applyMove gs.state m)).Nodup :=
      (List.nodup_cons.mp hnd).2
    have hrest2 : ∀ m ∈ rest,
        ¬ Minimax.getBoardStateKey (applyMove gs.state m) ∈
          (lruSet cache (Minimax.getBoardStateKey (applyMove gs.state mv))
            (Minimax.evaluatePosition { gs with state := applyMove gs.state mv }) 5000).map
            Prod.fst := by
      intro m hm hmem
      rcases mem_keys_lruSet hmem with he | he
      · exact (List.nodup_cons.mp hnd).1 (List.mem_map.mpr ⟨m, hm, by simpa using he⟩)
      · exact hfresh m (List.mem_cons_of_mem mv hm) he
    split
    · exact ih _ (some mv) (p + 2) _ cache2 hrest1 hrest2
    · exact ih bs bm (p + 2) _ cache2 hrest1 hrest2

/-- C3 (amended): the transposition cache is result-transparent for a
depth-1 search whose root children have pairwise distinct board
serializations — for such states the cache-enabled and cache-disabled
runs return the same result.  In general the equivalence fails (see
the counterexample): the key `state.join('')` drops empty cells, so
distinct boards collide, and cached leaf values are served at other
nodes. -/
theorem c3_amended_depth1_equiv_of_distinct_keys :
    ∀ gs : GameState,
      ((Minimax.orderMovesByHeuristic gs.state (getAllLegalMoves gs.state)).map fun m =>
        Minimax.getBoardStateKey (applyMove gs.state m)).Nodup →
      (Minimax.iterativeDeepening ⟨clock0, true⟩ gs 1 ⟨0, []⟩).1 =
      (Minimax.iterativeDeepening ⟨clock0, false⟩ gs 1 ⟨0, []⟩).1 := by
  intro gs hnd
  unfold Minimax.iterativeDeepening
  exact idLoop_depth1_cache_transparent gs _ JNum.ninf none 0 [] []
    hnd (by intro m _ h; simp at h)

/-- C3 witness: the board with an empty top row below which six full
rows sit has seven legal slides with pairwise distinct child
serializations, and for it the cached and uncached depth-1 searches
agree. -/
theorem c3_witness :
    ((Minimax.orderMovesByHeuristic gsTopHole.state (getAllLegalMoves gsTopHole.state)).map
      fun m => Minimax.getBoardStateKey (applyMove gsTopHole.state m)).Nodup ∧
    (Minimax.iterativeDeepening ⟨clock0, true⟩ gsTopHole 1 ⟨0, []⟩).1 =
    (Minimax.iterativeDeepening ⟨clock0, false⟩ gsTopHole 1 ⟨0, []⟩).1 :=
  ⟨by with_unfolding_all decide,
   c3_amended_depth1_equiv_of_distinct_keys gsTopHole (by with_unfolding_all decide)⟩

theorem cellAt_set_ne (l : BoardState) (i j : ℕ) (a : Col) (h : i ≠ j) :
    cellAt (l.set i a) j = cellAt l j := by
  unfold cellAt
  rw [List.getD_eq_getElem?_getD, List.getD_eq_getElem?_getD, List.getElem?_set_ne h]

/-- Cells other than the origin and destination are untouched by a
move. -/
theorem cellAt_applyMove_ne (state : BoardState) (move : Move) (i : ℕ)
    (h1 : i ≠ move.fromI) (h2 : i ≠ move.toI) :
    cellAt (applyMove state move) i = cellAt state i := by
  unfold applyMove
  rw [cellAt_set_ne _ _ _ _ (Ne.symm h1), cellAt_set_ne _ _ _ _ (Ne.symm h2)]

/-- Rows through neither the origin nor the destination are untouched
by a move. -/
theorem getRow_applyMove_ne (state : BoardState) (move : Move)
    (hf : move.fromI < 49) (ht : move.toI < 49) (r : ℕ)
    (h1 : r ≠ move.fromI / 7) (h2 : r ≠ move.toI / 7) :
    getRow (applyMove state move) r = getRow state r := by
  unfold getRow
  apply List.map_congr_left
  intro c hc
  have hc7 : c < 7 := List.mem_range.mp hc
  apply cellAt_applyMove_ne
  · intro he; exact h1 (by omega)
  · intro he; exact h2 (by omega)

/-- Columns through neither the origin nor the destination are
untouched by a move. -/
theorem getColumn_applyMove_ne (state : BoardState) (move : Move)
    (hf : move.fromI < 49) (ht : move.toI < 49) (c : ℕ) (hc7 : c < 7)
    (h1 : c ≠ move.fromI % 7) (h2 : c ≠ move.toI % 7) :
    getColumn (applyMove state move) c = getColumn state c := by
  unfold getColumn
  apply List.map_congr_left
  intro r hr
  have hr7 : r < 7 := List.mem_range.mp hr
  apply cellAt_applyMove_ne
  · intro he; exact h1 (by omega)
  · intro he; exact h2 (by omega)

/-- Difference of the row sums of the full-board score, reduced to the
two affected rows. -/
theorem rowSums_diff (state : BoardState) (move : Move)
    (hf : move.fromI < 49) (ht : move.toI < 49) :
    Finset.sum (Finset.range 7) (fun r => scoreSequence (getRow (applyMove state move) r)) -
      Finset.sum (Finset.range 7) (fun r => scoreSequence (getRow state r)) =
    (scoreSequence (getRow (applyMove state move) (move.fromI / 7)) -
      scoreSequence (getRow state (move.fromI / 7))) +
    (if move.toI / 7 ≠ move.fromI / 7 then
      scoreSequence (getRow (applyMove state move) (move.toI / 7)) -
        scoreSequence (getRow state (move.toI / 7)) else 0) := by
  rw [← Finset.sum_sub_distrib]
  by_cases h : move.toI / 7 = move.fromI / 7
  · rw [if_neg (by simp [h])]
    have hz : ∀ b ∈ Finset.range 7, b ≠ move.fromI / 7 →
        scoreSequence (getRow (applyMove state move) b) - scoreSequence (getRow state b) = 0 := by
      intro b _ hb
      rw [getRow_applyMove_ne state move hf ht b hb (h ▸ hb)]
      ring
    rw [Finset.sum_eq_single_of_mem (move.fromI / 7) (Finset.mem_range.mpr (by omega)) hz]
    ring
  · rw [if_pos h]
    have hsub : ({move.fromI / 7, move.toI / 7} : Finset ℕ) ⊆ Finset.range 7 := by
      intro x hx
      rcases Finset.mem_insert.mp hx with hx | hx
      · exact Finset.mem_range.mpr (by omega)
      · rw [Finset.mem_singleton] at hx
        exact Finset.mem_range.mpr (by omega)
    have hz : ∀ x ∈ Finset.range 7, x ∉ ({move.fromI / 7, move.toI / 7} : Finset ℕ) →
        scoreSequence (getRow (applyMove state move) x) - scoreSequence (getRow state x) = 0 := by
      intro x _ hx
      rw [Finset.mem_insert, Finset.mem_singleton, not_or] at hx
      rw [getRow_applyMove_ne state move hf ht x hx.1 hx.2]
      ring
    rw [← Finset.sum_subset hsub hz, Finset.sum_pair (fun he => h he.symm)]

/-- Difference of the column sums of the full-board score, reduced to
the two affected columns. -/
theorem colSums_diff (state : BoardState) (move : Move)
    (hf : move.fromI < 49) (ht : move.toI < 49) :
    Finset.sum (Finset.range 7) (fun c => scoreSequence (getColumn (applyMove state move) c)) -
      Finset.sum (Finset.range 7) (fun c => scoreSequence (getColumn state c)) =
    (scoreSequence (getColumn (applyMove state move) (move.fromI % 7)) -
      scoreSequence (getColumn state (move.fromI % 7))) +
    (if move.toI % 7 ≠ move.fromI % 7 then
      scoreSequence (getColumn (applyMove state move) (move.toI % 7)) -
        scoreSequence (getColumn state (move.toI % 7)) else 0) := by
  rw [← Finset.sum_sub_distrib]
  by_cases h : move.toI % 7 = move.fromI % 7
  · rw [if_neg (by simp [h])]
    have hz : ∀ b ∈ Finset.range 7, b ≠ move.fromI % 7 →
        scoreSequence (getColumn (applyMove state move) b) -
          scoreSequence (getColumn state b) = 0 := by
      intro b hbr hb
      rw [getColumn_applyMove_ne state move hf ht b (Finset.mem_range.mp hbr) hb (h ▸ hb)]
      ring
    rw [Finset.sum_eq_single_of_mem (move.fromI % 7) (Finset.mem_range.mpr (by omega)) hz]
    ring
  · rw [if_pos h]
    have hsub : ({move.fromI % 7, move.toI % 7} : Finset ℕ) ⊆ Finset.range 7 := by
      intro x hx
      rcases Finset.mem_insert.mp hx with hx | hx
      · exact Finset.mem_range.mpr (by omega)
      · rw [Finset.mem_singleton] at hx
        exact Finset.mem_range.mpr (by omega)
    have hz : ∀ x ∈ Finset.range 7, x ∉ ({move.fromI % 7, move.toI % 7} : Finset ℕ) →
        scoreSequence (getColumn (applyMove state move) x) -
          scoreSequence (getColumn state x) = 0 := by
      intro x hxr hx
      rw [Finset.mem_insert, Finset.mem_singleton, not_or] at hx
      rw [getColumn_applyMove_ne state move hf ht x (Finset.mem_range.mp hxr) hx.1 hx.2]
      ring
    rw [← Finset.sum_subset hsub hz, Finset.sum_pair (fun he => h he.symm)]

/-- C5: for every 49-cell board and every slide, the incremental score
delta computed over only the affected rows and columns equals the
full-board score after the slide minus the full-board score before
it. -/
theorem c5_scoreDelta_equals_full_difference :
    ∀ (state : BoardState) (move : Move), state.length = 49 →
      move.fromI < 49 → move.toI < 49 →
      calculateScoreDelta state (applyMove state move) move =
        calculateFullBoardScore (applyMove state move) - calculateFullBoardScore state := by
  intro state move hlen hf ht
  have hrows := rowSums_diff state move hf ht
  have hcols := colSums_diff state move hf ht
  unfold calculateScoreDelta calculateFullBoardScore indexToCoords
  dsimp only
  split_ifs at hrows hcols ⊢ <;> linarith [hrows, hcols]

/-- C5 witness: the incremental delta at a concrete board and slide. -/
theorem c5_witness :
    calculateScoreDelta gsC4.state (applyMove gsC4.state ⟨10, 24⟩) ⟨10, 24⟩ =
      calculateFullBoardScore (applyMove gsC4.state ⟨10, 24⟩) -
        calculateFullBoardScore gsC4.state :=
  c5_scoreDelta_equals_full_difference gsC4.state ⟨10, 24⟩ (by decide) (by decide) (by decide)

theorem beq_map_inj {f : Col → Col} (hinj : Function.Injective f) (a b : Col) :
    (f a == f b) = (a == b) := by
  by_cases h : a = b
  · simp [h]
  · have : f a ≠ f b := fun he => h (hinj he)
    simp [h, this]

theorem lookup_map_inj {f : Col → Col} (hinj : Function.Injective f) (c : Col) :
    ∀ mapping : List (Col × Char),
      (mapping.map fun p => (f p.1, p.2)).lookup (f c) = mapping.lookup c := by
  intro mapping
  induction mapping with
  | nil => rfl
  | cons p rest ih =>
    cases p with
    | mk a ch =>
      simp only [List.map_cons, List.lookup, beq_map_inj hinj]
      cases h : (c == a) with
      | true => rfl
      | false => exact ih

theorem sigAux_map {f : Col → Col} (hinj : Function.Injective f) :
    ∀ (seq : List Col) (mapping : List (Col × Char)) (next : ℕ) (acc : String),
      sigAux (seq.map f) (mapping.map fun p => (f p.1, p.2)) next acc =
        sigAux seq mapping next acc := by
  intro seq
  induction seq with
  | nil => intros; rfl
  | cons c rest ih =>
    intro mapping next acc
    simp only [List.map_cons, sigAux, lookup_map_inj hinj]
    cases mapping.lookup c with
    | some ch => exact ih mapping next (acc.push ch)
    | none =>
      have : ((c, Char.ofNat next) :: mapping).map (fun p => (f p.1, p.2)) =
          (f c, Char.ofNat next) :: mapping.map fun p => (f p.1, p.2) := rfl
      rw [← this]
      exact ih _ (next + 1) (acc.push (Char.ofNat next))

/-- The pattern signature is invariant under injective relabeling of
the colors. -/
theorem getPalindromeSignature_map {f : Col → Col} (hinj : Function.Injective f)
    (seq : List Col) : getPalindromeSignature (seq.map f) = getPalindromeSignature seq :=
  sigAux_map hinj seq [] 65 ""

theorem getD_map_empty {f : Col → Col} (hemp : f Col.empty = Col.empty)
    (l : List Col) (i : ℕ) : (l.map f).getD i Col.empty = f (l.getD i Col.empty) := by
  rw [List.getD_eq_getElem?_getD, List.getD_eq_getElem?_getD, List.getElem?_map]
  cases l[i]? with
  | none => simp [hemp]
  | some a => rfl

/-- The palindrome test is invariant under injective relabeling. -/
theorem isPalindrome_map {f : Col → Col} (hinj : Function.Injective f)
    (hemp : f Col.empty = Col.empty) (seq : List Col) :
    isPalindrome (seq.map f) = isPalindrome seq := by
  unfold isPalindrome
  rw [List.length_map]
  congr 1
  funext i
  rw [getD_map_empty hemp, getD_map_empty hemp, beq_map_inj hinj]

/-- The per-palindrome score is invariant under injective relabeling. -/
theorem scorePalindrome_map {f : Col → Col} (hinj : Function.Injective f)
    (seq : List Col) : scorePalindrome (seq.map f) = scorePalindrome seq := by
  unfold scorePalindrome
  rw [getPalindromeSignature_map hinj, List.length_map]

theorem filter_ne_empty_map {f : Col → Col} (hinj : Function.Injective f)
    (hemp : f Col.empty = Col.empty) (seq : List Col) :
    (seq.map f).filter (fun c => c != Col.empty) =
      (seq.filter fun c => c != Col.empty).map f := by
  induction seq with
  | nil => rfl
  | cons c rest ih =>
    by_cases hc : c = Col.empty
    · subst hc
      simp [hemp, ih]
    · have h1 : (c != Col.empty) = true := by simp [hc]
      have h2 : (f c != Col.empty) = true := by
        have hne : f c ≠ Col.empty := fun he => hc (hinj (he.trans hemp.symm))
        simp [hne]
      simp [List.filter_cons, h1, h2, ih]

/-- The sub-run scoring loop is invariant under injective relabeling. -/
theorem scoreFilled_map {f : Col → Col} (hinj : Function.Injective f)
    (hemp : f Col.empty = Col.empty) (filled : List Col) :
    scoreFilled (filled.map f) = scoreFilled filled := by
  unfold scoreFilled
  rw [List.length_map]
  split
  · rfl
  · congr 1
    congr 1
    funext k
    dsimp only
    congr 1
    congr 1
    funext start
    dsimp only
    rw [← List.map_drop, ← List.map_take, isPalindrome_map hinj hemp,
      scorePalindrome_map hinj]

/-- The line score is invariant under injective relabeling. -/
theorem scoreSequence_map {f : Col → Col} (hinj : Function.Injective f)
    (hemp : f Col.empty = Col.empty) (seq : List Col) :
    scoreSequence (seq.map f) = scoreSequence seq := by
  unfold scoreSequence
  rw [filter_ne_empty_map hinj hemp, scoreFilled_map hinj hemp]

theorem getRow_map {f : Col → Col} (hemp : f Col.empty = Col.empty)
    (state : BoardState) (r : ℕ) : getRow (state.map f) r = (getRow state r).map f := by
  unfold getRow
  rw [List.map_map]
  apply List.map_congr_left
  intro c _
  unfold cellAt
  exact getD_map_empty hemp state (r * 7 + c)

theorem getColumn_map {f : Col → Col} (hemp : f Col.empty = Col.empty)
    (state : BoardState) (c : ℕ) : getColumn (state.map f) c = (getColumn state c).map f := by
  unfold getColumn
  rw [List.map_map]
  apply List.map_congr_left
  intro r _
  unfold cellAt
  exact getD_map_empty hemp state (r * 7 + c)

/-- C9: for every board and every permutation of the seven color
identities (an injective relabeling of the colors fixing the empty
cell), replacing every cell's color by its image leaves the total
board score unchanged. -/
theorem c9_score_invariant_under_color_relabeling :
    ∀ (state : BoardState) (f : Col → Col), Function.Injective f →
      f Col.empty = Col.empty →
      calculateFullBoardScore (state.map f) = calculateFullBoardScore state := by
  intro state f hinj hemp
  unfold calculateFullBoardScore
  congr 1
  · apply Finset.sum_congr rfl
    intro r _
    rw [getRow_map hemp, scoreSequence_map hinj hemp]
  · apply Finset.sum_congr rfl
    intro c _
    rw [getColumn_map hemp, scoreSequence_map hinj hemp]

/-- C9 witness: swapping the colors R and G on a concrete board leaves
the total score unchanged. -/
theorem c9_witness :
    calculateFullBoardScore (gsC4.state.map fun c =>
      match c with
      | Col.R => Col.G
      | Col.G => Col.R
      | x => x) = calculateFullBoardScore gsC4.state :=
  c9_score_invariant_under_color_relabeling gsC4.state _
    (by intro a b; cases a <;> cases b <;> decide) (by decide)
